import Mathlib

/-!
Verification of the workspace script execution engine.

This file gives a shallow embedding, in Lean 4, of the core pieces of the
repository: the `CircularBuffer` class, the `runWorkspaceScript` orchestration
function from the script runner, and the `LocalBackgroundHandle` event/lifecycle
logic.  External collaborators (the `Runtime` backends, the bash execution
engine, the operating system) are modelled as oracles: records of functions
whose behaviour is universally quantified in the theorems.  A JavaScript
function that may throw is embedded as a Lean function returning
`Except String α`, where the `.error` branch is a thrown exception.
-/

/-! ## String helpers with JavaScript semantics -/

/-- The single-quote character `'` (code 39). -/
def singleQuoteChar : Char := Char.ofNat 39

/-- The backslash character (code 92). -/
def backslashChar : Char := Char.ofNat 92

/-- The double-quote character (code 34). -/
def doubleQuoteChar : Char := Char.ofNat 34

/-- Check whether the character list `pat` occurs as a contiguous sublist of
`s`; this is the semantics of JavaScript `String.prototype.includes`. -/
def charsInclude (s pat : List Char) : Bool :=
  match s with
  | [] => pat.isEmpty
  | _ :: rest => pat.isPrefixOf s || charsInclude rest pat

/-- JavaScript `s.includes(pat)`. -/
def strIncludes (s pat : String) : Bool :=
  charsInclude s.data pat.data

/-- JavaScript `s.startsWith(p)` (also the Lean/TS prefix test on the
underlying character sequences). -/
def strStartsWith (s p : String) : Bool :=
  p.data.isPrefixOf s.data

/-- JavaScript `s.replace(/c/g, r)` for a single-character pattern `c`:
every occurrence of the character `c` is replaced by the string `r`. -/
def replaceChar (s : String) (c : Char) (r : String) : String :=
  String.join (s.data.map (fun ch => if ch = c then r else String.mk [ch]))

/-- Whitespace test used by `trimString` (space, tab, newline, carriage
return). -/
def isWsChar (c : Char) : Bool :=
  c = ' ' || c = Char.ofNat 9 || c = Char.ofNat 10 || c = Char.ofNat 13

/-- JavaScript `s.trim()`: strip leading and trailing whitespace. -/
def trimString (s : String) : String :=
  String.mk (((s.data.dropWhile isWsChar).reverse.dropWhile isWsChar).reverse)

/-- JavaScript `s.replace(/\/+$/, "")`: strip trailing forward slashes. -/
def dropTrailingSlashes (s : String) : String :=
  String.mk ((s.data.reverse.dropWhile (· = '/')).reverse)

/-- JavaScript `Array.prototype.join(sep)`. -/
def jsJoin (sep : String) : List String → String
  | [] => ""
  | [x] => x
  | x :: y :: rest => x ++ sep ++ jsJoin sep (y :: rest)

/-! ## CircularBuffer

Embedding of `class CircularBuffer<T>` from the source.  The backing store
`new Array<T>(capacity)` is an array of holes, so a slot is modelled as
`Option T` (`none` = never written).  `head`, `tail`, `size` and the modulo
arithmetic follow the source verbatim. -/

structure CircularBuffer (T : Type) where
  capacity : Nat
  buffer : List (Option T)
  head : Nat
  tail : Nat
  size : Nat

namespace CircularBuffer

/-- The constructor: `buffer = new Array<T>(capacity)`, `head = tail = size = 0`. -/
def empty (T : Type) (capacity : Nat) : CircularBuffer T :=
  { capacity := capacity, buffer := List.replicate capacity none, head := 0, tail := 0, size := 0 }

/-- `push(item)`: write at `tail`, advance `tail` modulo `capacity`; grow
`size` if not yet full, otherwise advance `head` (oldest item overwritten). -/
def push (b : CircularBuffer T) (item : T) : CircularBuffer T :=
  let buffer := b.buffer.set b.tail (some item)
  let tail := (b.tail + 1) % b.capacity
  if b.size < b.capacity then
    { b with buffer := buffer, tail := tail, size := b.size + 1 }
  else
    { b with buffer := buffer, tail := tail, head := (b.head + 1) % b.capacity }

/-- `toArray()`: read `size` slots starting at `head`, advancing modulo
`capacity` (the loop index after `i` steps is `(head + i) % capacity`). -/
def toArray (b : CircularBuffer T) : List (Option T) :=
  if b.size = 0 then []
  else (List.range b.size).map (fun i => b.buffer.getD ((b.head + i) % b.capacity) none)

/-- `get length()`. -/
def length (b : CircularBuffer T) : Nat := b.size

/-- `isEmpty()`. -/
def isEmpty (b : CircularBuffer T) : Bool := b.size == 0

/-- `isFull()`. -/
def isFull (b : CircularBuffer T) : Bool := b.size == b.capacity

/-- `clear()`. -/
def clear (b : CircularBuffer T) : CircularBuffer T :=
  { b with head := 0, tail := 0, size := 0 }

/-- Push a whole list of items, left to right. -/
def pushAll (b : CircularBuffer T) (xs : List T) : CircularBuffer T :=
  xs.foldl push b

/-- Abstraction relation: the buffer `b` currently retains exactly the list
`l` (oldest first). -/
structure Inv (b : CircularBuffer T) (l : List T) : Prop where
  buflen : b.buffer.length = b.capacity
  sz : b.size = l.length
  le : l.length ≤ b.capacity
  hd : b.head < b.capacity
  tl : b.tail = (b.head + b.size) % b.capacity
  content : ∀ i, i < l.length → b.buffer.getD ((b.head + i) % b.capacity) none = l[i]?

/-- The abstract effect of one `push` on the retained list. -/
def modelStep (C : Nat) (l : List α) (x : α) : List α :=
  if l.length < C then l ++ [x] else l.drop 1 ++ [x]

/-- The last `C` elements of a list. -/
def lastN (C : Nat) (xs : List α) : List α :=
  xs.drop (xs.length - C)

end CircularBuffer

/-! ## LocalBackgroundHandle

Embedding of `LocalBackgroundHandle` (src/node/runtime/LocalBackgroundHandle.ts).
The handle's observable behaviour is its reaction to a sequence of operations:
callback registrations (`onStdout` / `onStderr` / `onExit`) and internal event
arrivals (`_emitStdout` / `_emitStderr` / `_emitExit`).  A delivery is an
invocation of a registered callback.  Callback identity is irrelevant to the
claims, so registration is modelled as a flag. -/

inductive HOp where
  | onStdout
  | onStderr
  | onExit
  | emitStdout (line : String)
  | emitStderr (line : String)
  | emitExit (code : Int)
deriving DecidableEq, Repr

structure HandleState where
  stdoutRegistered : Bool
  stderrRegistered : Bool
  exitRegistered : Bool
  pendingStdout : List String
  pendingStderr : List String
  pendingExitCode : Option Int
deriving DecidableEq, Repr

/-- Fresh handle: no callbacks registered, empty buffers (constructor plus the
field initializers of the class). -/
def HandleState.init : HandleState :=
  { stdoutRegistered := false, stderrRegistered := false, exitRegistered := false,
    pendingStdout := [], pendingStderr := [], pendingExitCode := none }

/-- A callback invocation observed by the environment. -/
inductive Delivery where
  | stdout (line : String)
  | stderr (line : String)
  | exited (code : Int)
deriving DecidableEq, Repr

/-- One operation on the handle, returning the new state and the list of
callback invocations it causes, mirroring the six methods of the class:
registration flushes the corresponding buffer, emission delivers directly when
a callback is registered and buffers otherwise. -/
def handleStep (s : HandleState) : HOp → HandleState × List Delivery
  | .onStdout =>
    ({ s with stdoutRegistered := true, pendingStdout := [] },
      s.pendingStdout.map Delivery.stdout)
  | .onStderr =>
    ({ s with stderrRegistered := true, pendingStderr := [] },
      s.pendingStderr.map Delivery.stderr)
  | .onExit =>
    match s.pendingExitCode with
    | some c =>
      ({ s with exitRegistered := true, pendingExitCode := none }, [Delivery.exited c])
    | none => ({ s with exitRegistered := true }, [])
  | .emitStdout line =>
    if s.stdoutRegistered then (s, [Delivery.stdout line])
    else ({ s with pendingStdout := s.pendingStdout ++ [line] }, [])
  | .emitStderr line =>
    if s.stderrRegistered then (s, [Delivery.stderr line])
    else ({ s with pendingStderr := s.pendingStderr ++ [line] }, [])
  | .emitExit code =>
    if s.exitRegistered then (s, [Delivery.exited code])
    else ({ s with pendingExitCode := some code }, [])

/-- Run a sequence of operations, concatenating the deliveries in order. -/
def runHandleOps (s : HandleState) : List HOp → HandleState × List Delivery
  | [] => (s, [])
  | op :: rest =>
    ((runHandleOps (handleStep s op).1 rest).1,
     (handleStep s op).2 ++ (runHandleOps (handleStep s op).1 rest).2)

def deliveryOutLine : Delivery → Option String
  | .stdout l => some l
  | _ => none

def deliveryErrLine : Delivery → Option String
  | .stderr l => some l
  | _ => none

def deliveryExitCode : Delivery → Option Int
  | .exited c => some c
  | _ => none

/-- The stdout lines delivered, in order. -/
def stdoutDeliveries (ds : List Delivery) : List String := ds.filterMap deliveryOutLine

/-- The stderr lines delivered, in order. -/
def stderrDeliveries (ds : List Delivery) : List String := ds.filterMap deliveryErrLine

/-- The exit codes delivered, in order. -/
def exitDeliveries (ds : List Delivery) : List Int := ds.filterMap deliveryExitCode

def opOutLine : HOp → Option String
  | .emitStdout l => some l
  | _ => none

def opErrLine : HOp → Option String
  | .emitStderr l => some l
  | _ => none

def opExitCode : HOp → Option Int
  | .emitExit c => some c
  | _ => none

/-- The stdout lines emitted by a sequence of operations, in order. -/
def stdoutEmits (ops : List HOp) : List String := ops.filterMap opOutLine

/-- The stderr lines emitted, in order. -/
def stderrEmits (ops : List HOp) : List String := ops.filterMap opErrLine

/-- The exit codes emitted, in order. -/
def exitEmits (ops : List HOp) : List Int := ops.filterMap opExitCode

/-- The last exit code of `l`, defaulting to `o` when `l` is empty. -/
def lastOpt (o : Option Int) (l : List Int) : Option Int :=
  l.foldl (fun _ c => some c) o

/-! ## LocalBackgroundHandle.terminate

`terminate()` interacts with the operating system: `process.kill` on the
process group (which throws when the group is already gone), a fixed
2000 ms grace wait, and an `isRunning()` re-check.  The OS reactions are an
oracle `TermWorld`; the observable effect of a call is the list of system
actions it performs plus the final `terminated` flag. -/

structure TermWorld where
  /-- `this.disposable.underlying.pid` (undefined when spawn failed). -/
  pid : Option Nat
  /-- Outcome of `process.kill(pgid, "SIGTERM")`; `.error` is a throw (for
  example the group is already dead). -/
  killTermOutcome : Except String Unit
  /-- Value of `await this.isRunning()` after the 2-second grace window. -/
  runningAfterGrace : Bool
  /-- Outcome of `process.kill(pgid, "SIGKILL")`; swallowed either way by the
  surrounding catch. -/
  killKillOutcome : Except String Unit

inductive SysAct where
  | signal (target : Int) (sig : String)
  | waitMs (ms : Nat)
deriving DecidableEq, Repr

/-- `terminate()`: early-return when already terminated; otherwise signal the
process group `-pid` with SIGTERM, wait 2000 ms, re-check `isRunning()` and
escalate to SIGKILL on the same group only when still alive; any `process.kill`
throw is swallowed; the `terminated` flag is set in every path.  Returns the
new flag and the system actions performed, in order. -/
def terminate (terminated : Bool) (w : TermWorld) : Bool × List SysAct :=
  if terminated then (terminated, [])
  else
    match w.pid with
    | none => (true, [])
    | some pid =>
      match w.killTermOutcome with
      | .error _ => (true, [SysAct.signal (-(pid : Int)) "SIGTERM"])
      | .ok _ =>
        if w.runningAfterGrace then
          (true, [SysAct.signal (-(pid : Int)) "SIGTERM", SysAct.waitMs 2000,
                  SysAct.signal (-(pid : Int)) "SIGKILL"])
        else
          (true, [SysAct.signal (-(pid : Int)) "SIGTERM", SysAct.waitMs 2000])

/-! ## Script runner

Embedding of `runWorkspaceScript` (src/unnamed/part_001, lines 128-326).  The
`Runtime` and bash-engine collaborators are oracles.  A `RunOutcome` records,
besides the returned value, the calls the function made (its trace), the
engine call's outcome when one happened, and whether the cleanup `rm` was
issued or deliberately skipped.  `runWorkspaceScript` returning
`Except.error` models an exception escaping to the caller. -/

inductive OverflowPolicy where
  | truncate
  | tmpfile
deriving DecidableEq, Repr

/-- `RunScriptOptions` fields relevant to the claims; `env`, `secrets` and
`abortSignal` are forwarded opaquely to the engine and do not influence any
of the verified control flow. -/
structure RunScriptOptions where
  timeoutSecs : Nat := 300
  overflowPolicy : OverflowPolicy := OverflowPolicy.truncate
  persistentTempDir : Option String := none

structure StatInfo where
  isDirectory : Bool
deriving DecidableEq, Repr

structure ExecResult where
  exitCode : Int
  stdout : String
  stderr : String
deriving DecidableEq, Repr

/-- The `Runtime` collaborator: path resolution, stat, normalization and
buffered execution.  `resolvePath` and `stat` may throw (`.error`), which the
source guards with try/catch in some places and not in others;
`execBuffered` returns an exit-code record per its contract. -/
structure Runtime where
  resolvePath : String → Except String String
  stat : String → Except String StatInfo
  normalizePath : String → String → String
  execBuffered : String → ExecResult

/-- `BashToolResult` as consumed by the runner: a success carries `output`; a
failure carries `error` text and an optional partial `output` (the source
reads `toolResult.output ?? ""` on failure); both carry `exitCode`. -/
inductive BashToolResult where
  | ok (output : String) (exitCode : Int)
  | fail (error : String) (output : Option String) (exitCode : Int)
deriving DecidableEq, Repr

def BashToolResult.success : BashToolResult → Bool
  | .ok .. => true
  | .fail .. => false

def BashToolResult.exitCode : BashToolResult → Int
  | .ok _ e => e
  | .fail _ _ e => e

/-- The bash engine (`createBashTool(...).execute`): takes the per-call temp
dir, the overflow policy, the command and the timeout; returns a result or
throws. -/
structure BashEngine where
  execute : String → OverflowPolicy → String → Nat → Except String BashToolResult

/-- The repository's `Result` type (`Ok` / `Err`). -/
inductive Result (α ε : Type) where
  | Ok (v : α)
  | Err (e : ε)
deriving DecidableEq, Repr

structure ScriptExecutionResult where
  exitCode : Int
  stdout : String
  stderr : String
  toolResult : BashToolResult
deriving DecidableEq, Repr

/-- A runtime or engine call observed during a run. -/
inductive Ev where
  | resolvePath (p : String)
  | stat (p : String)
  | execBuffered (cmd : String)
  | engineExec (cmd : String)
deriving DecidableEq, Repr

/-- Observable outcome of one `runWorkspaceScript` call. -/
structure RunOutcome where
  result : Except String (Result ScriptExecutionResult String)
  trace : List Ev
  engineOutcome : Option (Except String BashToolResult)
  cleanupRun : Bool
  skipCleanup : Bool

/-- Modelled from the spec: `getScriptsDir` of the script-discovery
collaborator (its source is not provided); the canonical scripts directory
`.mux/scripts` under the workspace root, the path named by the runner's
not-found message. -/
def getScriptsDir (workspacePath : String) : String :=
  workspacePath ++ "/.mux/scripts"

/-- Modelled from the spec: `getScriptPath` of the discovery collaborator;
the named script inside the canonical scripts directory. -/
def getScriptPath (workspacePath scriptName : String) : String :=
  getScriptsDir workspacePath ++ "/" ++ scriptName

/-- Modelled from the spec: `getLegacyScriptsDir` of the discovery
collaborator; the legacy fallback directory (its exact name is immaterial to
every claim). -/
def getLegacyScriptsDir (workspacePath : String) : String :=
  workspacePath ++ "/scripts"

/-- Modelled from the spec: `getLegacyScriptPath` of the discovery
collaborator. -/
def getLegacyScriptPath (workspacePath scriptName : String) : String :=
  getLegacyScriptsDir workspacePath ++ "/" ++ scriptName

/-- One guarded resolution attempt (the bodies of the two try blocks, lines
162-166 and 169-173): resolve the script path, stat it, resolve the scripts
dir; any throw is caught by the surrounding catch (`.error ()`). -/
def tryResolveStat (rt : Runtime) (p d : String) :
    Except Unit (String × String) × List Ev :=
  match rt.resolvePath p with
  | .error _ => (.error (), [Ev.resolvePath p])
  | .ok cand =>
    match rt.stat cand with
    | .error _ => (.error (), [Ev.resolvePath p, Ev.stat cand])
    | .ok _ =>
      match rt.resolvePath d with
      | .error _ => (.error (), [Ev.resolvePath p, Ev.stat cand, Ev.resolvePath d])
      | .ok dir => (.ok (cand, dir), [Ev.resolvePath p, Ev.stat cand, Ev.resolvePath d])

/-- The unguarded fallback of the inner catch (lines 175-179): resolve the
canonical path and dir with no surrounding try; throws propagate. -/
def resolveFallback (rt : Runtime) (p d : String) :
    Except String (String × String) × List Ev :=
  match rt.resolvePath p with
  | .error e => (.error e, [Ev.resolvePath p])
  | .ok sp =>
    match rt.resolvePath d with
    | .error e => (.error e, [Ev.resolvePath p, Ev.resolvePath d])
    | .ok sd => (.ok (sp, sd), [Ev.resolvePath p, Ev.resolvePath d])

/-- Resolution with fallback (lines 161-180): canonical try, then legacy try,
then the unguarded canonical fallback. -/
def resolveScript (rt : Runtime) (workspacePath scriptName : String) :
    Except String (String × String) × List Ev :=
  match tryResolveStat rt (getScriptPath workspacePath scriptName)
      (getScriptsDir workspacePath) with
  | (.ok r, t) => (.ok r, t)
  | (.error _, t1) =>
    match tryResolveStat rt (getLegacyScriptPath workspacePath scriptName)
        (getLegacyScriptsDir workspacePath) with
    | (.ok r, t2) => (.ok r, t1 ++ t2)
    | (.error _, t2) =>
      match resolveFallback rt (getScriptPath workspacePath scriptName)
          (getScriptsDir workspacePath) with
      | (res, t3) => (res, t1 ++ t2 ++ t3)

/-- `normalizeForShell` (line 209): backslashes become forward slashes. -/
def normalizeForShell (value : String) : String :=
  replaceChar value backslashChar "/"

/-- `escapeSingleQuotes` (line 210). -/
def escapeSingleQuotes (value : String) : String :=
  replaceChar value singleQuoteChar "'\\''"

/-- `persistentBase` (lines 212-215): the trimmed, shell-normalized persistent
root with trailing slashes stripped, or `none` when absent or blank. -/
def persistentBase (persistentTempDir : Option String) : Option String :=
  match persistentTempDir with
  | some p =>
    if 0 < (trimString p).length then
      some (dropTrailingSlashes (normalizeForShell (trimString p)))
    else none
  | none => none

/-- `tempDirCommand` (lines 217-219). -/
def tempDirCommand (pb : Option String) : String :=
  match pb with
  | some base =>
    "mkdir -p '" ++ escapeSingleQuotes base ++ "' && mktemp -d '"
      ++ escapeSingleQuotes (base ++ "/script-XXXXXX") ++ "'"
  | none => "mktemp -d 2>/dev/null || mktemp -d -t 'mux-script'"

/-- The `rm -rf` command issued by `cleanupTempDir` (lines 242-246). -/
def cleanupCommand (runtimeTempDir : String) : String :=
  "rm -rf \"" ++ replaceChar runtimeTempDir doubleQuoteChar "\\\"" ++ "\""

/-- Single-quote one segment (lines 251-257 and 263): wrap in single quotes
after replacing every embedded single quote by the sequence the source writes
as `'\\''`. -/
def shellQuote (arg : String) : String :=
  "'" ++ replaceChar arg singleQuoteChar "'\\''" ++ "'"

/-- `escapedArgs` (lines 251-258): the quoted arguments joined by spaces. -/
def escapedArgs (args : List String) : String :=
  jsJoin " " (args.map shellQuote)

/-- `command` (lines 263-264): quoted resolved path, then the escaped
arguments when nonempty. -/
def buildCommand (resolvedScriptPath : String) (args : List String) : String :=
  "'" ++ replaceChar resolvedScriptPath singleQuoteChar "'\\''" ++ "'"
    ++ (if escapedArgs args = "" then "" else " " ++ escapedArgs args)

def invalidNameMsg (scriptName : String) : String :=
  "Invalid script name: " ++ scriptName
    ++ ". Script names must not contain path separators."

def pathEscapeMsg (scriptName : String) : String :=
  "Invalid script name: " ++ scriptName ++ ". Script path escapes scripts directory."

def isDirectoryMsg (scriptName : String) : String :=
  "Script is a directory: " ++ scriptName

def notFoundMsg (scriptName : String) : String :=
  "Script not found: .mux/scripts/" ++ scriptName
    ++ ". Create the script in your workspace and make it executable (chmod +x)."

def prepareFailedMsg (stderr : String) : String :=
  "Failed to prepare script environment: "
    ++ (if stderr = "" then "mkdir failed" else stderr)

def emptyTempDirMsg : String :=
  "Failed to prepare script environment: runtime temp directory was empty"

def execFailedMsg (msg : String) : String :=
  "Script execution failed: " ++ msg

/-- `indicatesTmpfileOverflow` (lines 290-295): persistent base present,
policy `tmpfile`, engine failure whose error text contains the literal
`"[OUTPUT OVERFLOW -"`. -/
def indicatesTmpfileOverflow (pb : Option String) (policy : OverflowPolicy)
    (toolResult : BashToolResult) : Bool :=
  pb.isSome && (policy == OverflowPolicy.tmpfile) &&
    (match toolResult with
     | .fail err _ _ => strIncludes err "[OUTPUT OVERFLOW -"
     | .ok .. => false)

/-- Result assembly (lines 303-319): success keeps the full output with empty
stderr; failure keeps the partial output (`?? ""`) and the error text. -/
def assembleResult (toolResult : BashToolResult) : ScriptExecutionResult :=
  match toolResult with
  | .ok output exitCode =>
    { exitCode := exitCode, stdout := output, stderr := "", toolResult := toolResult }
  | .fail err output exitCode =>
    { exitCode := exitCode, stdout := output.getD "", stderr := err,
      toolResult := toolResult }

/-- Steps 3-6 and exception containment (lines 206-325), entered once the
containment and existence checks have passed; the trace is relative to phase
entry. -/
def runExecutionPhase (rt : Runtime) (engine : BashEngine)
    (args : List String) (opts : RunScriptOptions)
    (resolvedScriptPath : String) : RunOutcome :=
  let pb := persistentBase opts.persistentTempDir
  let tcmd := tempDirCommand pb
  let tempDirResult := rt.execBuffered tcmd
  if tempDirResult.exitCode ≠ 0 then
    { result := .ok (Result.Err (prepareFailedMsg tempDirResult.stderr)),
      trace := [Ev.execBuffered tcmd], engineOutcome := none,
      cleanupRun := false, skipCleanup := false }
  else
    let runtimeTempDir := trimString tempDirResult.stdout
    if runtimeTempDir = "" then
      { result := .ok (Result.Err emptyTempDirMsg),
        trace := [Ev.execBuffered tcmd], engineOutcome := none,
        cleanupRun := false, skipCleanup := false }
    else
      let command := buildCommand resolvedScriptPath args
      match engine.execute runtimeTempDir opts.overflowPolicy command
          opts.timeoutSecs with
      | .ok toolResult =>
        let ind := indicatesTmpfileOverflow pb opts.overflowPolicy toolResult
        { result := .ok (Result.Ok (assembleResult toolResult)),
          trace := [Ev.execBuffered tcmd, Ev.engineExec command]
            ++ (if ind then []
                else [Ev.execBuffered (cleanupCommand runtimeTempDir)]),
          engineOutcome := some (.ok toolResult),
          cleanupRun := !ind, skipCleanup := ind }
      | .error msg =>
        { result := .ok (Result.Err (execFailedMsg msg)),
          trace := [Ev.execBuffered tcmd, Ev.engineExec command,
                    Ev.execBuffered (cleanupCommand runtimeTempDir)],
          engineOutcome := some (.error msg),
          cleanupRun := true, skipCleanup := false }

/-- The containment re-check (lines 182-192): normalize the resolved script
path and scripts dir through the runtime's normalizer, pick the separator from
the normalized dir, and test the `scriptsDir + separator` prefix; `true` means
the check fails (the path escapes). -/
def containmentFails (rt : Runtime) (workspacePath rsp rsd : String) : Bool :=
  let normalizedScriptPath := rt.normalizePath rsp workspacePath
  let normalizedScriptsDir := rt.normalizePath rsd workspacePath
  let separator := if strIncludes normalizedScriptsDir "\\" then "\\" else "/"
  !(strStartsWith normalizedScriptPath (normalizedScriptsDir ++ separator))

/-- `runWorkspaceScript` (lines 128-326): name validation, resolution with
legacy fallback, containment re-check on the runtime-normalized resolved
paths, existence/type check, then the execution phase. -/
def runWorkspaceScript (rt : Runtime) (engine : BashEngine)
    (workspacePath scriptName : String) (args : List String)
    (opts : RunScriptOptions) : RunOutcome :=
  if strIncludes scriptName "/" || strIncludes scriptName "\\"
      || strIncludes scriptName ".." then
    { result := .ok (Result.Err (invalidNameMsg scriptName)), trace := [],
      engineOutcome := none, cleanupRun := false, skipCleanup := false }
  else
    match resolveScript rt workspacePath scriptName with
    | (.error e, t0) =>
      { result := .error e, trace := t0, engineOutcome := none,
        cleanupRun := false, skipCleanup := false }
    | (.ok (resolvedScriptPath, resolvedScriptsDir), t0) =>
      if containmentFails rt workspacePath resolvedScriptPath resolvedScriptsDir then
        { result := .ok (Result.Err (pathEscapeMsg scriptName)), trace := t0,
          engineOutcome := none, cleanupRun := false, skipCleanup := false }
      else
        match rt.stat resolvedScriptPath with
        | .ok st =>
          if st.isDirectory then
            { result := .ok (Result.Err (isDirectoryMsg scriptName)),
              trace := t0 ++ [Ev.stat resolvedScriptPath],
              engineOutcome := none, cleanupRun := false, skipCleanup := false }
          else
            let ex := runExecutionPhase rt engine args opts resolvedScriptPath
            { ex with trace := t0 ++ [Ev.stat resolvedScriptPath] ++ ex.trace }
        | .error _ =>
          { result := .ok (Result.Err (notFoundMsg scriptName)),
            trace := t0 ++ [Ev.stat resolvedScriptPath],
            engineOutcome := none, cleanupRun := false, skipCleanup := false }

/-- Filesystem-only events: `resolvePath` and `stat` calls, as opposed to
command execution or engine invocation. -/
def Ev.isFsCall : Ev → Bool
  | .resolvePath _ => true
  | .stat _ => true
  | .execBuffered _ => false
  | .engineExec _ => false

/-- The temp-dir creation result of the execution phase. -/
abbrev tdRes (rt : Runtime) (opts : RunScriptOptions) : ExecResult :=
  rt.execBuffered (tempDirCommand (persistentBase opts.persistentTempDir))

/-- The temp-dir creation command of the execution phase. -/
abbrev tdCmd (opts : RunScriptOptions) : String :=
  tempDirCommand (persistentBase opts.persistentTempDir)

/-- The runtime temp directory (trimmed mktemp stdout). -/
abbrev tdDir (rt : Runtime) (opts : RunScriptOptions) : String :=
  trimString (tdRes rt opts).stdout

/-- The engine invocation made by the execution phase. -/
abbrev engineCall (rt : Runtime) (engine : BashEngine) (opts : RunScriptOptions)
    (rsp : String) (args : List String) : Except String BashToolResult :=
  engine.execute (tdDir rt opts) opts.overflowPolicy (buildCommand rsp args)
    opts.timeoutSecs

/-- A well-behaved runtime for concrete runs: identity resolution and
normalization, every path an existing file, temp-dir creation succeeding. -/
def okRuntime : Runtime :=
  { resolvePath := fun p => .ok p,
    stat := fun _ => .ok { isDirectory := false },
    normalizePath := fun p _ => p,
    execBuffered := fun _ => { exitCode := 0, stdout := "/tmp/mux-1", stderr := "" } }

/-- A runtime whose `resolvePath` resolves every input to a fixed path outside
the scripts directory (a symlink escape). -/
def escRuntime : Runtime :=
  { resolvePath := fun _ => .ok "/evil",
    stat := fun _ => .ok { isDirectory := false },
    normalizePath := fun p _ => p,
    execBuffered := fun _ => { exitCode := 0, stdout := "/tmp/mux-1", stderr := "" } }

/-- A runtime whose `resolvePath` and `stat` always throw. -/
def throwRuntime : Runtime :=
  { resolvePath := fun _ => .error "resolvePath boom",
    stat := fun _ => .error "stat boom",
    normalizePath := fun p _ => p,
    execBuffered := fun _ => { exitCode := 0, stdout := "/tmp/mux-1", stderr := "" } }

/-- An engine that returns the given result without throwing. -/
def okEngine (tr : BashToolResult) : BashEngine :=
  { execute := fun _ _ _ _ => .ok tr }

/-- An engine whose execute always throws the given message. -/
def throwEngine (msg : String) : BashEngine :=
  { execute := fun _ _ _ _ => .error msg }

/-! ## Theorems -/

namespace CircularBuffer

theorem empty_inv (T : Type) (C : Nat) (hC : 1 ≤ C) : Inv (empty T C) [] := by
  refine ⟨?_, rfl, ?_, ?_, ?_, ?_⟩
  · simp [empty]
  · simp
  · simpa [empty] using hC
  · simp [empty]
  · intro i hi; simp at hi

/-- Indices below the capacity that agree modulo the capacity (after a common
shift) are equal. -/
theorem mod_shift_inj {H i j C : Nat} (hi : i < C) (hj : j < C)
    (h : (H + i) % C = (H + j) % C) : i = j := by
  have h1 : Nat.ModEq C (H + i) (H + j) := h
  have h2 : Nat.ModEq C i j := Nat.ModEq.add_left_cancel' H h1
  have h3 : i % C = j % C := h2
  rwa [Nat.mod_eq_of_lt hi, Nat.mod_eq_of_lt hj] at h3

theorem push_inv {b : CircularBuffer T} {l : List T} (h : Inv b l)
    (hC : 1 ≤ b.capacity) (x : T) :
    Inv (b.push x) (modelStep b.capacity l x) := by
  obtain ⟨buflen, sz, le, hd, tl, content⟩ := h
  have htl : b.tail < b.capacity := by
    rw [tl]; exact Nat.mod_lt _ (by omega)
  have htlbuf : b.tail < b.buffer.length := by rw [buflen]; exact htl
  by_cases hlt : b.size < b.capacity
  · -- not yet full: append
    have hlen : l.length < b.capacity := by omega
    have hstep : modelStep b.capacity l x = l ++ [x] := by
      unfold modelStep; rw [if_pos hlen]
    rw [hstep]
    unfold push
    rw [if_pos hlt]
    refine ⟨?_, ?_, ?_, ?_, ?_, ?_⟩
    · simpa using buflen
    · simp [sz]
    · simp only [List.length_append, List.length_cons, List.length_nil]; omega
    · exact hd
    · show (b.tail + 1) % b.capacity = (b.head + (b.size + 1)) % b.capacity
      rw [tl, Nat.mod_add_mod]
      congr 1
    · intro i hi
      simp only [List.length_append, List.length_cons, List.length_nil] at hi
      by_cases hieq : i = l.length
      · subst hieq
        have hslot : (b.head + l.length) % b.capacity = b.tail := by
          rw [tl, sz]
        simp only [hslot]
        have hget : (b.buffer.set b.tail (some x))[b.tail]? = some (some x) :=
          List.getElem?_set_self (by simpa using htlbuf)
        simp only [List.getD_eq_getElem?_getD, hget, Option.getD_some]
        rw [List.getElem?_append_right (Nat.le_refl _)]
        simp
      · have hilt : i < l.length := by omega
        have hne : b.tail ≠ (b.head + i) % b.capacity := by
          rw [tl, sz]
          intro hcontra
          exact hieq (mod_shift_inj hlen (by omega) hcontra).symm
        have hget : (b.buffer.set b.tail (some x))[(b.head + i) % b.capacity]?
            = b.buffer[(b.head + i) % b.capacity]? :=
          List.getElem?_set_ne hne
        simp only [List.getD_eq_getElem?_getD, hget]
        have := content i hilt
        simp only [List.getD_eq_getElem?_getD] at this
        rw [this, List.getElem?_append_left hilt]
  · -- full: overwrite oldest
    have hsz : b.size = b.capacity := by omega
    have hlen : l.length = b.capacity := by omega
    have hlpos : 1 ≤ l.length := by omega
    have hstep : modelStep b.capacity l x = l.drop 1 ++ [x] := by
      unfold modelStep; rw [if_neg (by omega)]
    rw [hstep]
    unfold push
    rw [if_neg hlt]
    have htail_eq : b.tail = b.head := by
      rw [tl, hsz, Nat.add_mod_right, Nat.mod_eq_of_lt hd]
    refine ⟨?_, ?_, ?_, ?_, ?_, ?_⟩
    · simpa using buflen
    · simp only [List.length_append, List.length_drop, List.length_cons, List.length_nil]
      omega
    · simp only [List.length_append, List.length_drop, List.length_cons, List.length_nil]
      omega
    · exact Nat.mod_lt _ (by omega)
    · -- new tail = (new head + size) % C
      show (b.tail + 1) % b.capacity = ((b.head + 1) % b.capacity + b.size) % b.capacity
      rw [htail_eq, hsz, Nat.mod_add_mod, Nat.add_mod_right]
    · intro i hi
      simp only [List.length_append, List.length_drop, List.length_cons,
        List.length_nil] at hi
      have hiC : i < b.capacity := by omega
      by_cases hieq : i = b.capacity - 1
      · -- the newly pushed element
        subst hieq
        have hslot : ((b.head + 1) % b.capacity + (b.capacity - 1)) % b.capacity = b.head := by
          rw [Nat.mod_add_mod]
          have : b.head + 1 + (b.capacity - 1) = b.head + b.capacity := by omega
          rw [this, Nat.add_mod_right, Nat.mod_eq_of_lt hd]
        rw [hslot, ← htail_eq]
        have hget : (b.buffer.set b.tail (some x))[b.tail]? = some (some x) :=
          List.getElem?_set_self (by simpa using htlbuf)
        simp only [List.getD_eq_getElem?_getD, hget, Option.getD_some]
        have hdroplen : (l.drop 1).length = b.capacity - 1 := by
          simp only [List.length_drop]; omega
        rw [List.getElem?_append_right (by omega)]
        rw [hdroplen]
        have hidx : b.capacity - 1 - (b.capacity - 1) = 0 := by omega
        rw [hidx]
        rfl
      · -- an old element shifted down by one
        have hilt : i < b.capacity - 1 := by omega
        have hslot : ((b.head + 1) % b.capacity + i) % b.capacity
            = (b.head + (i + 1)) % b.capacity := by
          rw [Nat.mod_add_mod]
          congr 1
          omega
        rw [hslot]
        have hne : b.tail ≠ (b.head + (i + 1)) % b.capacity := by
          rw [htail_eq]
          intro hcontra
          have hzero : (b.head + 0) % b.capacity = b.head := by
            rw [Nat.add_zero, Nat.mod_eq_of_lt hd]
          have : (0 : Nat) = i + 1 := by
            refine mod_shift_inj (H := b.head) (C := b.capacity) (by omega) (by omega) ?_
            rw [hzero, ← hcontra]
          omega
        have hget : (b.buffer.set b.tail (some x))[(b.head + (i + 1)) % b.capacity]?
            = b.buffer[(b.head + (i + 1)) % b.capacity]? :=
          List.getElem?_set_ne hne
        simp only [List.getD_eq_getElem?_getD, hget]
        have hc := content (i + 1) (by omega)
        simp only [List.getD_eq_getElem?_getD] at hc
        rw [hc]
        have hdroplen : (l.drop 1).length = b.capacity - 1 := by
          simp only [List.length_drop]; omega
        rw [List.getElem?_append_left (by omega)]
        rw [List.getElem?_drop]
        congr 1
        omega

theorem toArray_eq_of_inv {b : CircularBuffer T} {l : List T} (h : Inv b l) :
    b.toArray = l.map some := by
  obtain ⟨buflen, sz, le, hd, tl, content⟩ := h
  unfold toArray
  by_cases hzero : b.size = 0
  · rw [if_pos hzero]
    have : l = [] := by
      cases l with
      | nil => rfl
      | cons a t => simp [hzero] at sz
    simp [this]
  · rw [if_neg hzero]
    apply List.ext_getElem?
    intro n
    by_cases hn : n < b.size
    · have hnl : n < l.length := by omega
      have hc := content n hnl
      rw [List.getElem?_eq_getElem hnl] at hc
      simp only [List.getD_eq_getElem?_getD] at hc
      simp only [List.getElem?_map, List.getElem?_range hn, List.getElem?_eq_getElem hnl]
      simp [hc]
    · rw [List.getElem?_map, List.getElem?_map]
      have h1 : (List.range b.size)[n]? = none := by
        rw [List.getElem?_eq_none_iff]; simpa using Nat.le_of_not_lt hn
      have h2 : l[n]? = none := by
        rw [List.getElem?_eq_none_iff]; omega
      rw [h1, h2]
      rfl

theorem pushAll_inv {b : CircularBuffer T} {l : List T} (xs : List T)
    (h : Inv b l) (hC : 1 ≤ b.capacity) :
    Inv (b.pushAll xs) (xs.foldl (modelStep b.capacity) l) := by
  induction xs generalizing b l with
  | nil => exact h
  | cons x rest ih =>
    have hstep := push_inv h hC x
    have hcap : (b.push x).capacity = b.capacity := by
      unfold push
      by_cases hlt : b.size < b.capacity <;> simp [hlt]
    have := ih hstep (by rw [hcap]; exact hC)
    rw [hcap] at this
    exact this

theorem foldl_modelStep (C : Nat) (hC : 1 ≤ C) :
    ∀ (xs l : List α), l.length ≤ C →
      xs.foldl (modelStep C) l = lastN C (l ++ xs)
  | [], l, hl => by
    unfold lastN
    have : l.length - C = 0 := by omega
    simp [this]
  | x :: rest, l, hl => by
    rw [List.foldl_cons]
    by_cases hlt : l.length < C
    · have hstep : modelStep C l x = l ++ [x] := by
        unfold modelStep; rw [if_pos hlt]
      rw [hstep, foldl_modelStep C hC rest (l ++ [x]) (by simp; omega)]
      simp [lastN]
    · have hlen : l.length = C := by omega
      have hstep : modelStep C l x = l.drop 1 ++ [x] := by
        unfold modelStep; rw [if_neg (by omega)]
      rw [hstep, foldl_modelStep C hC rest (l.drop 1 ++ [x])
        (by simp only [List.length_append, List.length_drop, List.length_cons,
              List.length_nil]; omega)]
      unfold lastN
      have hsplit : l.drop 1 ++ [x] ++ rest = (l ++ x :: rest).drop 1 := by
        rw [List.drop_append_of_le_length (by omega)]
        simp
      rw [hsplit, List.drop_drop]
      congr 1
      simp only [List.length_drop, List.length_append, List.length_cons]
      omega

theorem pushAll_capacity (b : CircularBuffer T) (xs : List T) :
    (b.pushAll xs).capacity = b.capacity := by
  induction xs generalizing b with
  | nil => rfl
  | cons x rest ih =>
    have hcap : (b.push x).capacity = b.capacity := by
      unfold push; by_cases hlt : b.size < b.capacity <;> simp [hlt]
    show (CircularBuffer.pushAll (b.push x) rest).capacity = b.capacity
    rw [ih]; exact hcap

end CircularBuffer

/-- C7: for a CircularBuffer of capacity `C ≥ 1`, after pushing the items of
`xs` into a fresh buffer: `size ≤ C`; `size = min (length xs) C`; `toArray`
returns exactly the last `min (length xs) C` items in push order; if at least
`C` items were pushed the buffer is full; if fewer than `C` items were pushed,
`toArray` returns all of them in push order. -/
theorem circularBuffer_retains_last (T : Type) (C : Nat) (hC : 1 ≤ C) (xs : List T) :
    (CircularBuffer.pushAll (CircularBuffer.empty T C) xs).size ≤ C ∧
    (CircularBuffer.pushAll (CircularBuffer.empty T C) xs).size = min xs.length C ∧
    (CircularBuffer.pushAll (CircularBuffer.empty T C) xs).toArray
      = (CircularBuffer.lastN C xs).map some ∧
    (C ≤ xs.length → (CircularBuffer.pushAll (CircularBuffer.empty T C) xs).isFull = true) ∧
    (xs.length < C → (CircularBuffer.pushAll (CircularBuffer.empty T C) xs).toArray
      = xs.map some) := by
  have hinv := CircularBuffer.pushAll_inv (b := CircularBuffer.empty T C) (l := [])
    xs (CircularBuffer.empty_inv T C hC) hC
  have hfold := CircularBuffer.foldl_modelStep C hC xs [] (by simp)
  simp only [List.nil_append] at hfold
  have hcapE : (CircularBuffer.empty T C).capacity = C := rfl
  rw [hcapE] at hinv
  rw [hfold] at hinv
  have hlastlen : (CircularBuffer.lastN C xs).length = min xs.length C := by
    unfold CircularBuffer.lastN
    simp only [List.length_drop]
    omega
  have hsize : (CircularBuffer.pushAll (CircularBuffer.empty T C) xs).size
      = min xs.length C := by
    rw [hinv.sz, hlastlen]
  have hcap : (CircularBuffer.pushAll (CircularBuffer.empty T C) xs).capacity = C := by
    rw [CircularBuffer.pushAll_capacity]; rfl
  refine ⟨?_, hsize, ?_, ?_, ?_⟩
  · rw [hsize]; omega
  · exact CircularBuffer.toArray_eq_of_inv hinv
  · intro hge
    unfold CircularBuffer.isFull
    rw [hsize, hcap]
    simp
    omega
  · intro hlt
    have : CircularBuffer.lastN C xs = xs := by
      unfold CircularBuffer.lastN
      have : xs.length - C = 0 := by omega
      rw [this, List.drop_zero]
    rw [CircularBuffer.toArray_eq_of_inv hinv, this]

/-- Witness for C7 at the concrete example of the claim: capacity 3, pushes
1,2,3,4,5. -/
theorem circularBuffer_retains_last_witness :
    (1 : Nat) ≤ 3 ∧
    (CircularBuffer.pushAll (CircularBuffer.empty Nat 3) [1, 2, 3, 4, 5]).toArray
      = [some 3, some 4, some 5] ∧
    (CircularBuffer.pushAll (CircularBuffer.empty Nat 3) [1, 2, 3, 4, 5]).size = 3 ∧
    (CircularBuffer.pushAll (CircularBuffer.empty Nat 3) [1, 2, 3, 4, 5]).isFull = true := by
  have h := circularBuffer_retains_last Nat 3 (by decide) [1, 2, 3, 4, 5]
  refine ⟨by decide, ?_, ?_, ?_⟩
  · exact h.2.2.1.trans (by decide)
  · exact h.2.1.trans (by decide)
  · exact h.2.2.2.1 (by decide)

theorem stdoutDeliveries_append (a b : List Delivery) :
    stdoutDeliveries (a ++ b) = stdoutDeliveries a ++ stdoutDeliveries b :=
  List.filterMap_append a b deliveryOutLine

theorem stderrDeliveries_append (a b : List Delivery) :
    stderrDeliveries (a ++ b) = stderrDeliveries a ++ stderrDeliveries b :=
  List.filterMap_append a b deliveryErrLine

theorem exitDeliveries_append (a b : List Delivery) :
    exitDeliveries (a ++ b) = exitDeliveries a ++ exitDeliveries b :=
  List.filterMap_append a b deliveryExitCode

theorem stdoutDeliveries_map_out : ∀ ls : List String,
    stdoutDeliveries (ls.map Delivery.stdout) = ls
  | [] => rfl
  | l :: rest => by
    have hcomp : deliveryOutLine ∘ Delivery.stdout = some := by
      funext x; rfl
    simp [stdoutDeliveries, List.filterMap_cons, deliveryOutLine, hcomp]

theorem stdoutDeliveries_map_err : ∀ ls : List String,
    stdoutDeliveries (ls.map Delivery.stderr) = []
  | [] => rfl
  | l :: rest => by
    simp [stdoutDeliveries, List.filterMap_cons, deliveryOutLine,
      stdoutDeliveries_map_err rest]

theorem stderrDeliveries_map_err : ∀ ls : List String,
    stderrDeliveries (ls.map Delivery.stderr) = ls
  | [] => rfl
  | l :: rest => by
    have hcomp : deliveryErrLine ∘ Delivery.stderr = some := by
      funext x; rfl
    simp [stderrDeliveries, List.filterMap_cons, deliveryErrLine, hcomp]

theorem stderrDeliveries_map_out : ∀ ls : List String,
    stderrDeliveries (ls.map Delivery.stdout) = []
  | [] => rfl
  | l :: rest => by
    simp [stderrDeliveries, List.filterMap_cons, deliveryErrLine,
      stderrDeliveries_map_out rest]

theorem exitDeliveries_map_out : ∀ ls : List String,
    exitDeliveries (ls.map Delivery.stdout) = []
  | [] => rfl
  | l :: rest => by
    simp [exitDeliveries, List.filterMap_cons, deliveryExitCode,
      exitDeliveries_map_out rest]

theorem exitDeliveries_map_err : ∀ ls : List String,
    exitDeliveries (ls.map Delivery.stderr) = []
  | [] => rfl
  | l :: rest => by
    simp [exitDeliveries, List.filterMap_cons, deliveryExitCode,
      exitDeliveries_map_err rest]

theorem runHandleOps_append (l1 l2 : List HOp) : ∀ s : HandleState,
    runHandleOps s (l1 ++ l2)
      = ((runHandleOps (runHandleOps s l1).1 l2).1,
         (runHandleOps s l1).2 ++ (runHandleOps (runHandleOps s l1).1 l2).2) := by
  induction l1 with
  | nil => intro s; simp [runHandleOps]
  | cons op rest ih =>
    intro s
    show ((runHandleOps (handleStep s op).1 (rest ++ l2)).1,
          (handleStep s op).2 ++ (runHandleOps (handleStep s op).1 (rest ++ l2)).2) = _
    rw [ih (handleStep s op).1]
    simp [runHandleOps, List.append_assoc]

/-- While no stdout callback has been registered, stdout lines accumulate in
the pending buffer in arrival order and nothing is delivered on the stdout
channel. -/
theorem stdout_pre_phase : ∀ (ops : List HOp) (s : HandleState),
    (∀ op ∈ ops, op ≠ HOp.onStdout) → s.stdoutRegistered = false →
    (runHandleOps s ops).1.stdoutRegistered = false ∧
    (runHandleOps s ops).1.pendingStdout = s.pendingStdout ++ stdoutEmits ops ∧
    stdoutDeliveries (runHandleOps s ops).2 = []
  | [], s, _, hreg => by
    refine ⟨hreg, by simp [runHandleOps, stdoutEmits], rfl⟩
  | op :: rest, s, hnone, hreg => by
    have hop : op ≠ HOp.onStdout := hnone op (List.mem_cons_self _ _)
    have hrest : ∀ o ∈ rest, o ≠ HOp.onStdout :=
      fun o ho => hnone o (List.mem_cons_of_mem _ ho)
    cases op with
    | onStdout => exact absurd rfl hop
    | onStderr =>
      have hstep : handleStep s HOp.onStderr
          = ({ s with stderrRegistered := true, pendingStderr := [] },
             s.pendingStderr.map Delivery.stderr) := by simp [handleStep]
      have ih := stdout_pre_phase rest
        { s with stderrRegistered := true, pendingStderr := [] } hrest hreg
      simp only [runHandleOps, hstep]
      refine ⟨ih.1, ?_, ?_⟩
      · rw [ih.2.1]; simp [stdoutEmits, List.filterMap_cons, opOutLine]
      · rw [stdoutDeliveries_append, ih.2.2, stdoutDeliveries_map_err]; rfl
    | onExit =>
      cases hpe : s.pendingExitCode with
      | some c =>
        have hstep : handleStep s HOp.onExit
            = ({ s with exitRegistered := true, pendingExitCode := none },
               [Delivery.exited c]) := by simp [handleStep, hpe]
        have ih := stdout_pre_phase rest
          { s with exitRegistered := true, pendingExitCode := none } hrest hreg
        simp only [runHandleOps, hstep]
        refine ⟨ih.1, ?_, ?_⟩
        · rw [ih.2.1]; simp [stdoutEmits, List.filterMap_cons, opOutLine]
        · rw [stdoutDeliveries_append, ih.2.2]; rfl
      | none =>
        have hstep : handleStep s HOp.onExit
            = ({ s with exitRegistered := true }, []) := by simp [handleStep, hpe]
        have ih := stdout_pre_phase rest { s with exitRegistered := true } hrest hreg
        simp only [runHandleOps, hstep]
        refine ⟨ih.1, ?_, ?_⟩
        · rw [ih.2.1]; simp [stdoutEmits, List.filterMap_cons, opOutLine]
        · rw [stdoutDeliveries_append, ih.2.2]; rfl
    | emitStdout line =>
      have hstep : handleStep s (HOp.emitStdout line)
          = ({ s with pendingStdout := s.pendingStdout ++ [line] }, []) := by
        simp [handleStep, hreg]
      have ih := stdout_pre_phase rest
        { s with pendingStdout := s.pendingStdout ++ [line] } hrest hreg
      simp only [runHandleOps, hstep]
      refine ⟨ih.1, ?_, ?_⟩
      · rw [ih.2.1]
        simp [stdoutEmits, List.filterMap_cons, opOutLine, List.append_assoc]
      · rw [stdoutDeliveries_append, ih.2.2]; rfl
    | emitStderr line =>
      by_cases hsr : s.stderrRegistered = true
      · have hstep : handleStep s (HOp.emitStderr line)
            = (s, [Delivery.stderr line]) := by simp [handleStep, hsr]
        have ih := stdout_pre_phase rest s hrest hreg
        simp only [runHandleOps, hstep]
        refine ⟨ih.1, ?_, ?_⟩
        · rw [ih.2.1]; simp [stdoutEmits, List.filterMap_cons, opOutLine]
        · rw [stdoutDeliveries_append, ih.2.2]; rfl
      · have hstep : handleStep s (HOp.emitStderr line)
            = ({ s with pendingStderr := s.pendingStderr ++ [line] }, []) := by
          simp [handleStep, hsr]
        have ih := stdout_pre_phase rest
          { s with pendingStderr := s.pendingStderr ++ [line] } hrest hreg
        simp only [runHandleOps, hstep]
        refine ⟨ih.1, ?_, ?_⟩
        · rw [ih.2.1]; simp [stdoutEmits, List.filterMap_cons, opOutLine]
        · rw [stdoutDeliveries_append, ih.2.2]; rfl
    | emitExit code =>
      by_cases her : s.exitRegistered = true
      · have hstep : handleStep s (HOp.emitExit code)
            = (s, [Delivery.exited code]) := by simp [handleStep, her]
        have ih := stdout_pre_phase rest s hrest hreg
        simp only [runHandleOps, hstep]
        refine ⟨ih.1, ?_, ?_⟩
        · rw [ih.2.1]; simp [stdoutEmits, List.filterMap_cons, opOutLine]
        · rw [stdoutDeliveries_append, ih.2.2]; rfl
      · have hstep : handleStep s (HOp.emitExit code)
            = ({ s with pendingExitCode := some code }, []) := by
          simp [handleStep, her]
        have ih := stdout_pre_phase rest
          { s with pendingExitCode := some code } hrest hreg
        simp only [runHandleOps, hstep]
        refine ⟨ih.1, ?_, ?_⟩
        · rw [ih.2.1]; simp [stdoutEmits, List.filterMap_cons, opOutLine]
        · rw [stdoutDeliveries_append, ih.2.2]; rfl

/-- Once the stdout callback is registered (and its buffer flushed), every
stdout line is delivered directly, in order. -/
theorem stdout_post_phase : ∀ (ops : List HOp) (s : HandleState),
    s.stdoutRegistered = true → s.pendingStdout = [] →
    (runHandleOps s ops).1.stdoutRegistered = true ∧
    (runHandleOps s ops).1.pendingStdout = [] ∧
    stdoutDeliveries (runHandleOps s ops).2 = stdoutEmits ops
  | [], s, hreg, hpend => ⟨hreg, hpend, rfl⟩
  | op :: rest, s, hreg, hpend => by
    cases op with
    | onStdout =>
      have hstep : handleStep s HOp.onStdout
          = ({ s with stdoutRegistered := true, pendingStdout := [] },
             s.pendingStdout.map Delivery.stdout) := by simp [handleStep]
      have ih := stdout_post_phase rest
        { s with stdoutRegistered := true, pendingStdout := [] } rfl rfl
      simp only [runHandleOps, hstep]
      refine ⟨ih.1, ih.2.1, ?_⟩
      rw [stdoutDeliveries_append, ih.2.2, hpend]
      simp [stdoutEmits, List.filterMap_cons, opOutLine, stdoutDeliveries]
    | onStderr =>
      have hstep : handleStep s HOp.onStderr
          = ({ s with stderrRegistered := true, pendingStderr := [] },
             s.pendingStderr.map Delivery.stderr) := by simp [handleStep]
      have ih := stdout_post_phase rest
        { s with stderrRegistered := true, pendingStderr := [] } hreg hpend
      simp only [runHandleOps, hstep]
      refine ⟨ih.1, ih.2.1, ?_⟩
      rw [stdoutDeliveries_append, ih.2.2, stdoutDeliveries_map_err]
      simp [stdoutEmits, List.filterMap_cons, opOutLine]
    | onExit =>
      cases hpe : s.pendingExitCode with
      | some c =>
        have hstep : handleStep s HOp.onExit
            = ({ s with exitRegistered := true, pendingExitCode := none },
               [Delivery.exited c]) := by simp [handleStep, hpe]
        have ih := stdout_post_phase rest
          { s with exitRegistered := true, pendingExitCode := none } hreg hpend
        simp only [runHandleOps, hstep]
        refine ⟨ih.1, ih.2.1, ?_⟩
        rw [stdoutDeliveries_append, ih.2.2]
        simp [stdoutEmits, List.filterMap_cons, opOutLine, stdoutDeliveries,
          List.filterMap_cons, deliveryOutLine]
      | none =>
        have hstep : handleStep s HOp.onExit
            = ({ s with exitRegistered := true }, []) := by simp [handleStep, hpe]
        have ih := stdout_post_phase rest { s with exitRegistered := true } hreg hpend
        simp only [runHandleOps, hstep]
        refine ⟨ih.1, ih.2.1, ?_⟩
        rw [stdoutDeliveries_append, ih.2.2]
        simp [stdoutEmits, List.filterMap_cons, opOutLine, stdoutDeliveries]
    | emitStdout line =>
      have hstep : handleStep s (HOp.emitStdout line)
          = (s, [Delivery.stdout line]) := by simp [handleStep, hreg]
      have ih := stdout_post_phase rest s hreg hpend
      simp only [runHandleOps, hstep]
      refine ⟨ih.1, ih.2.1, ?_⟩
      rw [stdoutDeliveries_append, ih.2.2]
      simp [stdoutEmits, List.filterMap_cons, opOutLine, stdoutDeliveries,
        deliveryOutLine]
    | emitStderr line =>
      by_cases hsr : s.stderrRegistered = true
      · have hstep : handleStep s (HOp.emitStderr line)
            = (s, [Delivery.stderr line]) := by simp [handleStep, hsr]
        have ih := stdout_post_phase rest s hreg hpend
        simp only [runHandleOps, hstep]
        refine ⟨ih.1, ih.2.1, ?_⟩
        rw [stdoutDeliveries_append, ih.2.2]
        simp [stdoutEmits, List.filterMap_cons, opOutLine, stdoutDeliveries,
          deliveryOutLine]
      · have hstep : handleStep s (HOp.emitStderr line)
            = ({ s with pendingStderr := s.pendingStderr ++ [line] }, []) := by
          simp [handleStep, hsr]
        have ih := stdout_post_phase rest
          { s with pendingStderr := s.pendingStderr ++ [line] } hreg hpend
        simp only [runHandleOps, hstep]
        refine ⟨ih.1, ih.2.1, ?_⟩
        rw [stdoutDeliveries_append, ih.2.2]
        simp [stdoutEmits, List.filterMap_cons, opOutLine, stdoutDeliveries]
    | emitExit code =>
      by_cases her : s.exitRegistered = true
      · have hstep : handleStep s (HOp.emitExit code)
            = (s, [Delivery.exited code]) := by simp [handleStep, her]
        have ih := stdout_post_phase rest s hreg hpend
        simp only [runHandleOps, hstep]
        refine ⟨ih.1, ih.2.1, ?_⟩
        rw [stdoutDeliveries_append, ih.2.2]
        simp [stdoutEmits, List.filterMap_cons, opOutLine, stdoutDeliveries,
          deliveryOutLine]
      · have hstep : handleStep s (HOp.emitExit code)
            = ({ s with pendingExitCode := some code }, []) := by
          simp [handleStep, her]
        have ih := stdout_post_phase rest
          { s with pendingExitCode := some code } hreg hpend
        simp only [runHandleOps, hstep]
        refine ⟨ih.1, ih.2.1, ?_⟩
        rw [stdoutDeliveries_append, ih.2.2]
        simp [stdoutEmits, List.filterMap_cons, opOutLine, stdoutDeliveries]

/-- While no stderr callback has been registered, stderr lines accumulate in
the pending buffer in arrival order and nothing is delivered on the stderr
channel. -/
theorem stderr_pre_phase : ∀ (ops : List HOp) (s : HandleState),
    (∀ op ∈ ops, op ≠ HOp.onStderr) → s.stderrRegistered = false →
    (runHandleOps s ops).1.stderrRegistered = false ∧
    (runHandleOps s ops).1.pendingStderr = s.pendingStderr ++ stderrEmits ops ∧
    stderrDeliveries (runHandleOps s ops).2 = []
  | [], s, _, hreg => by
    refine ⟨hreg, by simp [runHandleOps, stderrEmits], rfl⟩
  | op :: rest, s, hnone, hreg => by
    have hop : op ≠ HOp.onStderr := hnone op (List.mem_cons_self _ _)
    have hrest : ∀ o ∈ rest, o ≠ HOp.onStderr :=
      fun o ho => hnone o (List.mem_cons_of_mem _ ho)
    cases op with
    | onStderr => exact absurd rfl hop
    | onStdout =>
      have hstep : handleStep s HOp.onStdout
          = ({ s with stdoutRegistered := true, pendingStdout := [] },
             s.pendingStdout.map Delivery.stdout) := by simp [handleStep]
      have ih := stderr_pre_phase rest
        { s with stdoutRegistered := true, pendingStdout := [] } hrest hreg
      simp only [runHandleOps, hstep]
      refine ⟨ih.1, ?_, ?_⟩
      · rw [ih.2.1]; simp [stderrEmits, List.filterMap_cons, opErrLine]
      · rw [stderrDeliveries_append, ih.2.2, stderrDeliveries_map_out]; rfl
    | onExit =>
      cases hpe : s.pendingExitCode with
      | some c =>
        have hstep : handleStep s HOp.onExit
            = ({ s with exitRegistered := true, pendingExitCode := none },
               [Delivery.exited c]) := by simp [handleStep, hpe]
        have ih := stderr_pre_phase rest
          { s with exitRegistered := true, pendingExitCode := none } hrest hreg
        simp only [runHandleOps, hstep]
        refine ⟨ih.1, ?_, ?_⟩
        · rw [ih.2.1]; simp [stderrEmits, List.filterMap_cons, opErrLine]
        · rw [stderrDeliveries_append, ih.2.2]; rfl
      | none =>
        have hstep : handleStep s HOp.onExit
            = ({ s with exitRegistered := true }, []) := by simp [handleStep, hpe]
        have ih := stderr_pre_phase rest { s with exitRegistered := true } hrest hreg
        simp only [runHandleOps, hstep]
        refine ⟨ih.1, ?_, ?_⟩
        · rw [ih.2.1]; simp [stderrEmits, List.filterMap_cons, opErrLine]
        · rw [stderrDeliveries_append, ih.2.2]; rfl
    | emitStderr line =>
      have hstep : handleStep s (HOp.emitStderr line)
          = ({ s with pendingStderr := s.pendingStderr ++ [line] }, []) := by
        simp [handleStep, hreg]
      have ih := stderr_pre_phase rest
        { s with pendingStderr := s.pendingStderr ++ [line] } hrest hreg
      simp only [runHandleOps, hstep]
      refine ⟨ih.1, ?_, ?_⟩
      · rw [ih.2.1]
        simp [stderrEmits, List.filterMap_cons, opErrLine, List.append_assoc]
      · rw [stderrDeliveries_append, ih.2.2]; rfl
    | emitStdout line =>
      by_cases hsr : s.stdoutRegistered = true
      · have hstep : handleStep s (HOp.emitStdout line)
            = (s, [Delivery.stdout line]) := by simp [handleStep, hsr]
        have ih := stderr_pre_phase rest s hrest hreg
        simp only [runHandleOps, hstep]
        refine ⟨ih.1, ?_, ?_⟩
        · rw [ih.2.1]; simp [stderrEmits, List.filterMap_cons, opErrLine]
        · rw [stderrDeliveries_append, ih.2.2]; rfl
      · have hstep : handleStep s (HOp.emitStdout line)
            = ({ s with pendingStdout := s.pendingStdout ++ [line] }, []) := by
          simp [handleStep, hsr]
        have ih := stderr_pre_phase rest
          { s with pendingStdout := s.pendingStdout ++ [line] } hrest hreg
        simp only [runHandleOps, hstep]
        refine ⟨ih.1, ?_, ?_⟩
        · rw [ih.2.1]; simp [stderrEmits, List.filterMap_cons, opErrLine]
        · rw [stderrDeliveries_append, ih.2.2]; rfl
    | emitExit code =>
      by_cases her : s.exitRegistered = true
      · have hstep : handleStep s (HOp.emitExit code)
            = (s, [Delivery.exited code]) := by simp [handleStep, her]
        have ih := stderr_pre_phase rest s hrest hreg
        simp only [runHandleOps, hstep]
        refine ⟨ih.1, ?_, ?_⟩
        · rw [ih.2.1]; simp [stderrEmits, List.filterMap_cons, opErrLine]
        · rw [stderrDeliveries_append, ih.2.2]; rfl
      · have hstep : handleStep s (HOp.emitExit code)
            = ({ s with pendingExitCode := some code }, []) := by
          simp [handleStep, her]
        have ih := stderr_pre_phase rest
          { s with pendingExitCode := some code } hrest hreg
        simp only [runHandleOps, hstep]
        refine ⟨ih.1, ?_, ?_⟩
        · rw [ih.2.1]; simp [stderrEmits, List.filterMap_cons, opErrLine]
        · rw [stderrDeliveries_append, ih.2.2]; rfl

/-- Once the stderr callback is registered (and its buffer flushed), every
stderr line is delivered directly, in order. -/
theorem stderr_post_phase : ∀ (ops : List HOp) (s : HandleState),
    s.stderrRegistered = true → s.pendingStderr = [] →
    (runHandleOps s ops).1.stderrRegistered = true ∧
    (runHandleOps s ops).1.pendingStderr = [] ∧
    stderrDeliveries (runHandleOps s ops).2 = stderrEmits ops
  | [], s, hreg, hpend => ⟨hreg, hpend, rfl⟩
  | op :: rest, s, hreg, hpend => by
    cases op with
    | onStderr =>
      have hstep : handleStep s HOp.onStderr
          = ({ s with stderrRegistered := true, pendingStderr := [] },
             s.pendingStderr.map Delivery.stderr) := by simp [handleStep]
      have ih := stderr_post_phase rest
        { s with stderrRegistered := true, pendingStderr := [] } rfl rfl
      simp only [runHandleOps, hstep]
      refine ⟨ih.1, ih.2.1, ?_⟩
      rw [stderrDeliveries_append, ih.2.2, hpend]
      simp [stderrEmits, List.filterMap_cons, opErrLine, stderrDeliveries]
    | onStdout =>
      have hstep : handleStep s HOp.onStdout
          = ({ s with stdoutRegistered := true, pendingStdout := [] },
             s.pendingStdout.map Delivery.stdout) := by simp [handleStep]
      have ih := stderr_post_phase rest
        { s with stdoutRegistered := true, pendingStdout := [] } hreg hpend
      simp only [runHandleOps, hstep]
      refine ⟨ih.1, ih.2.1, ?_⟩
      rw [stderrDeliveries_append, ih.2.2, stderrDeliveries_map_out]
      simp [stderrEmits, List.filterMap_cons, opErrLine]
    | onExit =>
      cases hpe : s.pendingExitCode with
      | some c =>
        have hstep : handleStep s HOp.onExit
            = ({ s with exitRegistered := true, pendingExitCode := none },
               [Delivery.exited c]) := by simp [handleStep, hpe]
        have ih := stderr_post_phase rest
          { s with exitRegistered := true, pendingExitCode := none } hreg hpend
        simp only [runHandleOps, hstep]
        refine ⟨ih.1, ih.2.1, ?_⟩
        rw [stderrDeliveries_append, ih.2.2]
        simp [stderrEmits, List.filterMap_cons, opErrLine, stderrDeliveries,
          deliveryErrLine]
      | none =>
        have hstep : handleStep s HOp.onExit
            = ({ s with exitRegistered := true }, []) := by simp [handleStep, hpe]
        have ih := stderr_post_phase rest { s with exitRegistered := true } hreg hpend
        simp only [runHandleOps, hstep]
        refine ⟨ih.1, ih.2.1, ?_⟩
        rw [stderrDeliveries_append, ih.2.2]
        simp [stderrEmits, List.filterMap_cons, opErrLine, stderrDeliveries]
    | emitStderr line =>
      have hstep : handleStep s (HOp.emitStderr line)
          = (s, [Delivery.stderr line]) := by simp [handleStep, hreg]
      have ih := stderr_post_phase rest s hreg hpend
      simp only [runHandleOps, hstep]
      refine ⟨ih.1, ih.2.1, ?_⟩
      rw [stderrDeliveries_append, ih.2.2]
      simp [stderrEmits, List.filterMap_cons, opErrLine, stderrDeliveries,
        deliveryErrLine]
    | emitStdout line =>
      by_cases hsr : s.stdoutRegistered = true
      · have hstep : handleStep s (HOp.emitStdout line)
            = (s, [Delivery.stdout line]) := by simp [handleStep, hsr]
        have ih := stderr_post_phase rest s hreg hpend
        simp only [runHandleOps, hstep]
        refine ⟨ih.1, ih.2.1, ?_⟩
        rw [stderrDeliveries_append, ih.2.2]
        simp [stderrEmits, List.filterMap_cons, opErrLine, stderrDeliveries,
          deliveryErrLine]
      · have hstep : handleStep s (HOp.emitStdout line)
            = ({ s with pendingStdout := s.pendingStdout ++ [line] }, []) := by
          simp [handleStep, hsr]
        have ih := stderr_post_phase rest
          { s with pendingStdout := s.pendingStdout ++ [line] } hreg hpend
        simp only [runHandleOps, hstep]
        refine ⟨ih.1, ih.2.1, ?_⟩
        rw [stderrDeliveries_append, ih.2.2]
        simp [stderrEmits, List.filterMap_cons, opErrLine, stderrDeliveries]
    | emitExit code =>
      by_cases her : s.exitRegistered = true
      · have hstep : handleStep s (HOp.emitExit code)
            = (s, [Delivery.exited code]) := by simp [handleStep, her]
        have ih := stderr_post_phase rest s hreg hpend
        simp only [runHandleOps, hstep]
        refine ⟨ih.1, ih.2.1, ?_⟩
        rw [stderrDeliveries_append, ih.2.2]
        simp [stderrEmits, List.filterMap_cons, opErrLine, stderrDeliveries,
          deliveryErrLine]
      · have hstep : handleStep s (HOp.emitExit code)
            = ({ s with pendingExitCode := some code }, []) := by
          simp [handleStep, her]
        have ih := stderr_post_phase rest
          { s with pendingExitCode := some code } hreg hpend
        simp only [runHandleOps, hstep]
        refine ⟨ih.1, ih.2.1, ?_⟩
        rw [stderrDeliveries_append, ih.2.2]
        simp [stderrEmits, List.filterMap_cons, opErrLine, stderrDeliveries]

/-- While no exit callback has been registered, the pending exit code holds
the most recent emitted code and nothing is delivered on the exit channel. -/
theorem exit_pre_phase : ∀ (ops : List HOp) (s : HandleState),
    (∀ op ∈ ops, op ≠ HOp.onExit) → s.exitRegistered = false →
    (runHandleOps s ops).1.exitRegistered = false ∧
    (runHandleOps s ops).1.pendingExitCode = lastOpt s.pendingExitCode (exitEmits ops) ∧
    exitDeliveries (runHandleOps s ops).2 = []
  | [], s, _, hreg => by
    refine ⟨hreg, by simp [runHandleOps, exitEmits, lastOpt], rfl⟩
  | op :: rest, s, hnone, hreg => by
    have hop : op ≠ HOp.onExit := hnone op (List.mem_cons_self _ _)
    have hrest : ∀ o ∈ rest, o ≠ HOp.onExit :=
      fun o ho => hnone o (List.mem_cons_of_mem _ ho)
    cases op with
    | onExit => exact absurd rfl hop
    | onStdout =>
      have hstep : handleStep s HOp.onStdout
          = ({ s with stdoutRegistered := true, pendingStdout := [] },
             s.pendingStdout.map Delivery.stdout) := by simp [handleStep]
      have ih := exit_pre_phase rest
        { s with stdoutRegistered := true, pendingStdout := [] } hrest hreg
      simp only [runHandleOps, hstep]
      refine ⟨ih.1, ?_, ?_⟩
      · rw [ih.2.1]; simp [exitEmits, List.filterMap_cons, opExitCode]
      · rw [exitDeliveries_append, ih.2.2, exitDeliveries_map_out]; rfl
    | onStderr =>
      have hstep : handleStep s HOp.onStderr
          = ({ s with stderrRegistered := true, pendingStderr := [] },
             s.pendingStderr.map Delivery.stderr) := by simp [handleStep]
      have ih := exit_pre_phase rest
        { s with stderrRegistered := true, pendingStderr := [] } hrest hreg
      simp only [runHandleOps, hstep]
      refine ⟨ih.1, ?_, ?_⟩
      · rw [ih.2.1]; simp [exitEmits, List.filterMap_cons, opExitCode]
      · rw [exitDeliveries_append, ih.2.2, exitDeliveries_map_err]; rfl
    | emitExit code =>
      have hstep : handleStep s (HOp.emitExit code)
          = ({ s with pendingExitCode := some code }, []) := by
        simp [handleStep, hreg]
      have ih := exit_pre_phase rest { s with pendingExitCode := some code } hrest hreg
      simp only [runHandleOps, hstep]
      refine ⟨ih.1, ?_, ?_⟩
      · rw [ih.2.1]
        simp [exitEmits, List.filterMap_cons, opExitCode, lastOpt]
      · rw [exitDeliveries_append, ih.2.2]; rfl
    | emitStdout line =>
      by_cases hsr : s.stdoutRegistered = true
      · have hstep : handleStep s (HOp.emitStdout line)
            = (s, [Delivery.stdout line]) := by simp [handleStep, hsr]
        have ih := exit_pre_phase rest s hrest hreg
        simp only [runHandleOps, hstep]
        refine ⟨ih.1, ?_, ?_⟩
        · rw [ih.2.1]; simp [exitEmits, List.filterMap_cons, opExitCode]
        · rw [exitDeliveries_append, ih.2.2]; rfl
      · have hstep : handleStep s (HOp.emitStdout line)
            = ({ s with pendingStdout := s.pendingStdout ++ [line] }, []) := by
          simp [handleStep, hsr]
        have ih := exit_pre_phase rest
          { s with pendingStdout := s.pendingStdout ++ [line] } hrest hreg
        simp only [runHandleOps, hstep]
        refine ⟨ih.1, ?_, ?_⟩
        · rw [ih.2.1]; simp [exitEmits, List.filterMap_cons, opExitCode]
        · rw [exitDeliveries_append, ih.2.2]; rfl
    | emitStderr line =>
      by_cases hsr : s.stderrRegistered = true
      · have hstep : handleStep s (HOp.emitStderr line)
            = (s, [Delivery.stderr line]) := by simp [handleStep, hsr]
        have ih := exit_pre_phase rest s hrest hreg
        simp only [runHandleOps, hstep]
        refine ⟨ih.1, ?_, ?_⟩
        · rw [ih.2.1]; simp [exitEmits, List.filterMap_cons, opExitCode]
        · rw [exitDeliveries_append, ih.2.2]; rfl
      · have hstep : handleStep s (HOp.emitStderr line)
            = ({ s with pendingStderr := s.pendingStderr ++ [line] }, []) := by
          simp [handleStep, hsr]
        have ih := exit_pre_phase rest
          { s with pendingStderr := s.pendingStderr ++ [line] } hrest hreg
        simp only [runHandleOps, hstep]
        refine ⟨ih.1, ?_, ?_⟩
        · rw [ih.2.1]; simp [exitEmits, List.filterMap_cons, opExitCode]
        · rw [exitDeliveries_append, ih.2.2]; rfl

/-- Once the exit callback is registered with an empty pending slot, exit
codes are delivered directly, in order, and the pending slot stays empty. -/
theorem exit_post_phase : ∀ (ops : List HOp) (s : HandleState),
    s.exitRegistered = true → s.pendingExitCode = none →
    (runHandleOps s ops).1.exitRegistered = true ∧
    (runHandleOps s ops).1.pendingExitCode = none ∧
    exitDeliveries (runHandleOps s ops).2 = exitEmits ops
  | [], s, hreg, hpend => ⟨hreg, hpend, rfl⟩
  | op :: rest, s, hreg, hpend => by
    cases op with
    | onExit =>
      have hstep : handleStep s HOp.onExit
          = ({ s with exitRegistered := true }, []) := by simp [handleStep, hpend]
      have ih := exit_post_phase rest { s with exitRegistered := true } rfl hpend
      simp only [runHandleOps, hstep]
      refine ⟨ih.1, ih.2.1, ?_⟩
      rw [exitDeliveries_append, ih.2.2]
      simp [exitEmits, List.filterMap_cons, opExitCode, exitDeliveries]
    | onStdout =>
      have hstep : handleStep s HOp.onStdout
          = ({ s with stdoutRegistered := true, pendingStdout := [] },
             s.pendingStdout.map Delivery.stdout) := by simp [handleStep]
      have ih := exit_post_phase rest
        { s with stdoutRegistered := true, pendingStdout := [] } hreg hpend
      simp only [runHandleOps, hstep]
      refine ⟨ih.1, ih.2.1, ?_⟩
      rw [exitDeliveries_append, ih.2.2, exitDeliveries_map_out]
      simp [exitEmits, List.filterMap_cons, opExitCode]
    | onStderr =>
      have hstep : handleStep s HOp.onStderr
          = ({ s with stderrRegistered := true, pendingStderr := [] },
             s.pendingStderr.map Delivery.stderr) := by simp [handleStep]
      have ih := exit_post_phase rest
        { s with stderrRegistered := true, pendingStderr := [] } hreg hpend
      simp only [runHandleOps, hstep]
      refine ⟨ih.1, ih.2.1, ?_⟩
      rw [exitDeliveries_append, ih.2.2, exitDeliveries_map_err]
      simp [exitEmits, List.filterMap_cons, opExitCode]
    | emitExit code =>
      have hstep : handleStep s (HOp.emitExit code)
          = (s, [Delivery.exited code]) := by simp [handleStep, hreg]
      have ih := exit_post_phase rest s hreg hpend
      simp only [runHandleOps, hstep]
      refine ⟨ih.1, ih.2.1, ?_⟩
      rw [exitDeliveries_append, ih.2.2]
      simp [exitEmits, List.filterMap_cons, opExitCode, exitDeliveries,
        deliveryExitCode]
    | emitStdout line =>
      by_cases hsr : s.stdoutRegistered = true
      · have hstep : handleStep s (HOp.emitStdout line)
            = (s, [Delivery.stdout line]) := by simp [handleStep, hsr]
        have ih := exit_post_phase rest s hreg hpend
        simp only [runHandleOps, hstep]
        refine ⟨ih.1, ih.2.1, ?_⟩
        rw [exitDeliveries_append, ih.2.2]
        simp [exitEmits, List.filterMap_cons, opExitCode, exitDeliveries,
          deliveryExitCode]
      · have hstep : handleStep s (HOp.emitStdout line)
            = ({ s with pendingStdout := s.pendingStdout ++ [line] }, []) := by
          simp [handleStep, hsr]
        have ih := exit_post_phase rest
          { s with pendingStdout := s.pendingStdout ++ [line] } hreg hpend
        simp only [runHandleOps, hstep]
        refine ⟨ih.1, ih.2.1, ?_⟩
        rw [exitDeliveries_append, ih.2.2]
        simp [exitEmits, List.filterMap_cons, opExitCode, exitDeliveries]
    | emitStderr line =>
      by_cases hsr : s.stderrRegistered = true
      · have hstep : handleStep s (HOp.emitStderr line)
            = (s, [Delivery.stderr line]) := by simp [handleStep, hsr]
        have ih := exit_post_phase rest s hreg hpend
        simp only [runHandleOps, hstep]
        refine ⟨ih.1, ih.2.1, ?_⟩
        rw [exitDeliveries_append, ih.2.2]
        simp [exitEmits, List.filterMap_cons, opExitCode, exitDeliveries,
          deliveryExitCode]
      · have hstep : handleStep s (HOp.emitStderr line)
            = ({ s with pendingStderr := s.pendingStderr ++ [line] }, []) := by
          simp [handleStep, hsr]
        have ih := exit_post_phase rest
          { s with pendingStderr := s.pendingStderr ++ [line] } hreg hpend
        simp only [runHandleOps, hstep]
        refine ⟨ih.1, ih.2.1, ?_⟩
        rw [exitDeliveries_append, ih.2.2]
        simp [exitEmits, List.filterMap_cons, opExitCode, exitDeliveries]

/-- C8: per channel, events emitted before the channel's callback is first
registered are buffered and delivered exactly once, in original arrival order,
at the moment of first registration; events emitted after registration are
delivered directly; the (single) exit code is delivered at most once.  Each
conjunct considers an operation sequence `pre ++ [register] ++ post` where
`pre` contains no registration for that channel. -/
theorem backgroundHandle_channel_delivery (pre post : List HOp) :
    ((∀ op ∈ pre, op ≠ HOp.onStdout) →
      stdoutDeliveries (runHandleOps HandleState.init (pre ++ HOp.onStdout :: post)).2
        = stdoutEmits pre ++ stdoutEmits post) ∧
    ((∀ op ∈ pre, op ≠ HOp.onStderr) →
      stderrDeliveries (runHandleOps HandleState.init (pre ++ HOp.onStderr :: post)).2
        = stderrEmits pre ++ stderrEmits post) ∧
    ((∀ op ∈ pre, op ≠ HOp.onExit) → (exitEmits (pre ++ post)).length ≤ 1 →
      exitDeliveries (runHandleOps HandleState.init (pre ++ HOp.onExit :: post)).2
        = exitEmits (pre ++ post)) := by
  refine ⟨?_, ?_, ?_⟩
  · intro hnone
    obtain ⟨h1, h2, h3⟩ := stdout_pre_phase pre HandleState.init hnone rfl
    rw [runHandleOps_append pre (HOp.onStdout :: post) HandleState.init]
    have hstep : handleStep (runHandleOps HandleState.init pre).1 HOp.onStdout
        = ({ (runHandleOps HandleState.init pre).1 with
              stdoutRegistered := true, pendingStdout := [] },
           (runHandleOps HandleState.init pre).1.pendingStdout.map Delivery.stdout) := by
      simp [handleStep]
    obtain ⟨p1, p2, p3⟩ := stdout_post_phase post
      { (runHandleOps HandleState.init pre).1 with
          stdoutRegistered := true, pendingStdout := [] } rfl rfl
    simp only [runHandleOps, hstep]
    rw [stdoutDeliveries_append, h3, stdoutDeliveries_append, p3,
      stdoutDeliveries_map_out, h2]
    simp [HandleState.init]
  · intro hnone
    obtain ⟨h1, h2, h3⟩ := stderr_pre_phase pre HandleState.init hnone rfl
    rw [runHandleOps_append pre (HOp.onStderr :: post) HandleState.init]
    have hstep : handleStep (runHandleOps HandleState.init pre).1 HOp.onStderr
        = ({ (runHandleOps HandleState.init pre).1 with
              stderrRegistered := true, pendingStderr := [] },
           (runHandleOps HandleState.init pre).1.pendingStderr.map Delivery.stderr) := by
      simp [handleStep]
    obtain ⟨p1, p2, p3⟩ := stderr_post_phase post
      { (runHandleOps HandleState.init pre).1 with
          stderrRegistered := true, pendingStderr := [] } rfl rfl
    simp only [runHandleOps, hstep]
    rw [stderrDeliveries_append, h3, stderrDeliveries_append, p3,
      stderrDeliveries_map_err, h2]
    simp [HandleState.init]
  · intro hnone hlen
    obtain ⟨h1, h2, h3⟩ := exit_pre_phase pre HandleState.init hnone rfl
    have hEappend : exitEmits (pre ++ post) = exitEmits pre ++ exitEmits post :=
      List.filterMap_append pre post opExitCode
    rw [runHandleOps_append pre (HOp.onExit :: post) HandleState.init]
    cases hE : exitEmits pre with
    | nil =>
      have hpend : (runHandleOps HandleState.init pre).1.pendingExitCode = none := by
        rw [h2, hE]; rfl
      have hstep : handleStep (runHandleOps HandleState.init pre).1 HOp.onExit
          = ({ (runHandleOps HandleState.init pre).1 with exitRegistered := true },
             []) := by
        simp [handleStep, hpend]
      obtain ⟨p1, p2, p3⟩ := exit_post_phase post
        { (runHandleOps HandleState.init pre).1 with exitRegistered := true } rfl hpend
      simp only [runHandleOps, hstep]
      rw [exitDeliveries_append, h3, exitDeliveries_append, p3, hEappend, hE]
      simp [exitDeliveries]
    | cons c tailE =>
      rw [hEappend, hE] at hlen
      simp only [List.cons_append, List.length_cons, List.length_append] at hlen
      have htail : tailE = [] := List.length_eq_zero.mp (by omega)
      have hpost0 : exitEmits post = [] := List.length_eq_zero.mp (by omega)
      have hpend : (runHandleOps HandleState.init pre).1.pendingExitCode = some c := by
        rw [h2, hE, htail]; rfl
      have hstep : handleStep (runHandleOps HandleState.init pre).1 HOp.onExit
          = ({ (runHandleOps HandleState.init pre).1 with
                exitRegistered := true, pendingExitCode := none },
             [Delivery.exited c]) := by
        simp [handleStep, hpend]
      obtain ⟨p1, p2, p3⟩ := exit_post_phase post
        { (runHandleOps HandleState.init pre).1 with
            exitRegistered := true, pendingExitCode := none } rfl rfl
      simp only [runHandleOps, hstep]
      rw [exitDeliveries_append, h3, exitDeliveries_append, p3, hpost0,
        hEappend, hE, htail]
      simp [exitDeliveries, List.filterMap_cons, deliveryExitCode]
      exact hpost0

/-- Witness for C8: two stdout lines and an exit code emitted before
registration are flushed in order at registration; a line emitted afterwards
is delivered directly. -/
theorem backgroundHandle_channel_delivery_witness :
    stdoutDeliveries (runHandleOps HandleState.init
        ([HOp.emitStdout "a", HOp.emitExit 7, HOp.emitStdout "b"]
          ++ HOp.onStdout :: [HOp.emitStdout "c"])).2 = ["a", "b", "c"] ∧
    exitDeliveries (runHandleOps HandleState.init
        ([HOp.emitExit 7] ++ HOp.onExit :: [])).2 = [7] := by
  constructor
  · exact ((backgroundHandle_channel_delivery
      [HOp.emitStdout "a", HOp.emitExit 7, HOp.emitStdout "b"]
      [HOp.emitStdout "c"]).1 (by decide)).trans (by decide)
  · exact ((backgroundHandle_channel_delivery [HOp.emitExit 7] []).2.2
      (by decide) (by decide)).trans (by decide)

/-- C9: `terminate()` always returns normally with the flag set (signal errors
swallowed); a second call — in any world — performs no action; a call on an
already-terminated handle is a no-op; a first call signals the whole process
group `-pid` with SIGTERM, waits the 2000 ms grace window and sends SIGKILL to
the same group exactly when the kill succeeded and the process is still
running; SIGKILL is only ever sent when the process was still alive after the
grace window. -/
theorem terminate_spec (w w2 : TermWorld) (t : Bool) :
    (terminate t w).1 = true ∧
    terminate (terminate t w).1 w2 = (true, []) ∧
    (t = true → terminate t w = (true, [])) ∧
    (∀ p, t = false → w.pid = some p →
      (terminate t w).2
        = SysAct.signal (-(p : Int)) "SIGTERM" ::
          (match w.killTermOutcome with
           | .error _ => []
           | .ok _ => SysAct.waitMs 2000 ::
              (if w.runningAfterGrace then [SysAct.signal (-(p : Int)) "SIGKILL"]
               else []))) ∧
    (∀ p, w.pid = some p →
      SysAct.signal (-(p : Int)) "SIGKILL" ∈ (terminate t w).2 →
      w.runningAfterGrace = true) := by
  cases t with
  | true =>
    refine ⟨rfl, rfl, fun _ => rfl, ?_, ?_⟩
    · intro p hfalse _
      exact nomatch hfalse
    · intro p hp hmem
      simp [terminate] at hmem
  | false =>
    cases hp : w.pid with
    | none =>
      have hterm : terminate false w = (true, []) := by simp [terminate, hp]
      refine ⟨by rw [hterm], by rw [hterm]; rfl,
        fun h => absurd h Bool.false_ne_true, ?_, ?_⟩
      · intro p _ hps
        exact absurd hps (by simp)
      · intro p hps _
        exact absurd hps (by simp)
    | some p0 =>
      cases hk : w.killTermOutcome with
      | error e =>
        have hterm : terminate false w
            = (true, [SysAct.signal (-(p0 : Int)) "SIGTERM"]) := by
          simp [terminate, hp, hk]
        refine ⟨by rw [hterm], by rw [hterm]; rfl,
          fun h => absurd h Bool.false_ne_true, ?_, ?_⟩
        · intro p _ hps
          injection hps with hpe
          subst hpe
          rw [hterm]
        · intro p hps hmem
          injection hps with hpe
          subst hpe
          rw [hterm] at hmem
          simp at hmem
      | ok u =>
        cases hr : w.runningAfterGrace with
        | true =>
          have hterm : terminate false w
              = (true, [SysAct.signal (-(p0 : Int)) "SIGTERM", SysAct.waitMs 2000,
                        SysAct.signal (-(p0 : Int)) "SIGKILL"]) := by
            simp [terminate, hp, hk, hr]
          refine ⟨by rw [hterm], by rw [hterm]; rfl,
            fun h => absurd h Bool.false_ne_true, ?_, ?_⟩
          · intro p _ hps
            injection hps with hpe
            subst hpe
            rw [hterm]
            simp
          · intro p _ _
            rfl
        | false =>
          have hterm : terminate false w
              = (true, [SysAct.signal (-(p0 : Int)) "SIGTERM",
                        SysAct.waitMs 2000]) := by
            simp [terminate, hp, hk, hr]
          refine ⟨by rw [hterm], by rw [hterm]; rfl,
            fun h => absurd h Bool.false_ne_true, ?_, ?_⟩
          · intro p _ hps
            injection hps with hpe
            subst hpe
            rw [hterm]
            simp
          · intro p hps hmem
            injection hps with hpe
            subst hpe
            rw [hterm] at hmem
            simp at hmem

/-- Witness for C9 at a live process with pid 42 whose group survives the
grace window. -/
theorem terminate_spec_witness :
    (terminate false ⟨some 42, Except.ok (), true, Except.ok ()⟩).1 = true ∧
    terminate (terminate false ⟨some 42, Except.ok (), true, Except.ok ()⟩).1
        ⟨some 42, Except.ok (), true, Except.ok ()⟩ = (true, []) ∧
    (terminate false ⟨some 42, Except.ok (), true, Except.ok ()⟩).2
      = [SysAct.signal (-42) "SIGTERM", SysAct.waitMs 2000,
         SysAct.signal (-42) "SIGKILL"] := by
  have h := terminate_spec ⟨some 42, Except.ok (), true, Except.ok ()⟩
    ⟨some 42, Except.ok (), true, Except.ok ()⟩ false
  exact ⟨h.1, h.2.1, (h.2.2.2.1 42 rfl rfl).trans (by rfl)⟩

theorem tryResolveStat_trace_fs (rt : Runtime) (p d : String) :
    ∀ e ∈ (tryResolveStat rt p d).2, e.isFsCall = true := by
  unfold tryResolveStat
  cases h1 : rt.resolvePath p with
  | error e => simp [Ev.isFsCall]
  | ok cand =>
    cases h2 : rt.stat cand with
    | error e => simp [h2, Ev.isFsCall]
    | ok st =>
      cases h3 : rt.resolvePath d with
      | error e => simp [h2, h3, Ev.isFsCall]
      | ok dir => simp [h2, h3, Ev.isFsCall]

theorem resolveFallback_trace_fs (rt : Runtime) (p d : String) :
    ∀ e ∈ (resolveFallback rt p d).2, e.isFsCall = true := by
  unfold resolveFallback
  cases h1 : rt.resolvePath p with
  | error e => simp [Ev.isFsCall]
  | ok sp =>
    cases h2 : rt.resolvePath d with
    | error e => simp [h2, Ev.isFsCall]
    | ok sd => simp [h2, Ev.isFsCall]

theorem resolveScript_trace_fs (rt : Runtime) (workspacePath scriptName : String) :
    ∀ e ∈ (resolveScript rt workspacePath scriptName).2, e.isFsCall = true := by
  unfold resolveScript
  cases h1 : tryResolveStat rt (getScriptPath workspacePath scriptName)
      (getScriptsDir workspacePath) with
  | mk r1 t1 =>
    have hf1 : ∀ e ∈ t1, e.isFsCall = true := by
      have := tryResolveStat_trace_fs rt (getScriptPath workspacePath scriptName)
        (getScriptsDir workspacePath)
      rw [h1] at this; exact this
    cases r1 with
    | ok r => simpa using hf1
    | error u =>
      cases h2 : tryResolveStat rt (getLegacyScriptPath workspacePath scriptName)
          (getLegacyScriptsDir workspacePath) with
      | mk r2 t2 =>
        have hf2 : ∀ e ∈ t2, e.isFsCall = true := by
          have := tryResolveStat_trace_fs rt
            (getLegacyScriptPath workspacePath scriptName)
            (getLegacyScriptsDir workspacePath)
          rw [h2] at this; exact this
        cases r2 with
        | ok r =>
          intro e he
          simp only [List.mem_append] at he
          rcases he with he | he
          · exact hf1 e he
          · exact hf2 e he
        | error u2 =>
          cases h3 : resolveFallback rt (getScriptPath workspacePath scriptName)
              (getScriptsDir workspacePath) with
          | mk r3 t3 =>
            have hf3 : ∀ e ∈ t3, e.isFsCall = true := by
              have := resolveFallback_trace_fs rt
                (getScriptPath workspacePath scriptName)
                (getScriptsDir workspacePath)
              rw [h3] at this; exact this
            intro e he
            simp only [List.mem_append] at he
            rcases he with (he | he) | he
            · exact hf1 e he
            · exact hf2 e he
            · exact hf3 e he

/-- Exhaustive characterization of the execution phase: temp-dir failure,
empty temp dir, engine success (with the overflow-dependent cleanup), or
engine throw (with cleanup). -/
theorem phase_cases (rt : Runtime) (engine : BashEngine) (args : List String)
    (opts : RunScriptOptions) (rsp : String) :
    ((tdRes rt opts).exitCode ≠ 0 ∧
      runExecutionPhase rt engine args opts rsp
        = { result := .ok (Result.Err (prepareFailedMsg (tdRes rt opts).stderr)),
            trace := [Ev.execBuffered (tdCmd opts)], engineOutcome := none,
            cleanupRun := false, skipCleanup := false }) ∨
    ((tdRes rt opts).exitCode = 0 ∧ tdDir rt opts = "" ∧
      runExecutionPhase rt engine args opts rsp
        = { result := .ok (Result.Err emptyTempDirMsg),
            trace := [Ev.execBuffered (tdCmd opts)], engineOutcome := none,
            cleanupRun := false, skipCleanup := false }) ∨
    ((tdRes rt opts).exitCode = 0 ∧ tdDir rt opts ≠ "" ∧
      ∃ tr, engineCall rt engine opts rsp args = .ok tr ∧
        runExecutionPhase rt engine args opts rsp
          = { result := .ok (Result.Ok (assembleResult tr)),
              trace := [Ev.execBuffered (tdCmd opts),
                        Ev.engineExec (buildCommand rsp args)]
                ++ (if indicatesTmpfileOverflow (persistentBase opts.persistentTempDir)
                      opts.overflowPolicy tr then []
                    else [Ev.execBuffered (cleanupCommand (tdDir rt opts))]),
              engineOutcome := some (.ok tr),
              cleanupRun := !(indicatesTmpfileOverflow
                (persistentBase opts.persistentTempDir) opts.overflowPolicy tr),
              skipCleanup := indicatesTmpfileOverflow
                (persistentBase opts.persistentTempDir) opts.overflowPolicy tr }) ∨
    ((tdRes rt opts).exitCode = 0 ∧ tdDir rt opts ≠ "" ∧
      ∃ msg, engineCall rt engine opts rsp args = .error msg ∧
        runExecutionPhase rt engine args opts rsp
          = { result := .ok (Result.Err (execFailedMsg msg)),
              trace := [Ev.execBuffered (tdCmd opts),
                        Ev.engineExec (buildCommand rsp args),
                        Ev.execBuffered (cleanupCommand (tdDir rt opts))],
              engineOutcome := some (.error msg),
              cleanupRun := true, skipCleanup := false }) := by
  by_cases h1 : (tdRes rt opts).exitCode = 0
  · by_cases h2 : tdDir rt opts = ""
    · refine Or.inr (Or.inl ⟨h1, h2, ?_⟩)
      simp [runExecutionPhase, h1, h2]
    · cases h3 : engineCall rt engine opts rsp args with
      | ok tr =>
        refine Or.inr (Or.inr (Or.inl ⟨h1, h2, tr, rfl, ?_⟩))
        simp only [engineCall] at h3
        simp [runExecutionPhase, h1, h2, h3]
      | error msg =>
        refine Or.inr (Or.inr (Or.inr ⟨h1, h2, msg, rfl, ?_⟩))
        simp only [engineCall] at h3
        simp [runExecutionPhase, h1, h2, h3]
  · refine Or.inl ⟨h1, ?_⟩
    simp [runExecutionPhase, h1]

/-- Exhaustive characterization of `runWorkspaceScript`: invalid name,
resolution throw, containment failure, is-a-directory, not-found, or entry
into the execution phase. -/
theorem run_cases (rt : Runtime) (engine : BashEngine)
    (workspacePath scriptName : String) (args : List String)
    (opts : RunScriptOptions) :
    ((strIncludes scriptName "/" || strIncludes scriptName "\\"
        || strIncludes scriptName "..") = true ∧
      runWorkspaceScript rt engine workspacePath scriptName args opts
        = { result := .ok (Result.Err (invalidNameMsg scriptName)), trace := [],
            engineOutcome := none, cleanupRun := false, skipCleanup := false }) ∨
    ((strIncludes scriptName "/" || strIncludes scriptName "\\"
        || strIncludes scriptName "..") = false ∧
      ((∃ e t0, resolveScript rt workspacePath scriptName = (.error e, t0) ∧
        runWorkspaceScript rt engine workspacePath scriptName args opts
          = { result := .error e, trace := t0, engineOutcome := none,
              cleanupRun := false, skipCleanup := false }) ∨
      (∃ rsp rsd t0,
        resolveScript rt workspacePath scriptName = (.ok (rsp, rsd), t0) ∧
        containmentFails rt workspacePath rsp rsd = true ∧
        runWorkspaceScript rt engine workspacePath scriptName args opts
          = { result := .ok (Result.Err (pathEscapeMsg scriptName)), trace := t0,
              engineOutcome := none, cleanupRun := false, skipCleanup := false }) ∨
      (∃ rsp rsd t0 st,
        resolveScript rt workspacePath scriptName = (.ok (rsp, rsd), t0) ∧
        containmentFails rt workspacePath rsp rsd = false ∧
        rt.stat rsp = .ok st ∧ st.isDirectory = true ∧
        runWorkspaceScript rt engine workspacePath scriptName args opts
          = { result := .ok (Result.Err (isDirectoryMsg scriptName)),
              trace := t0 ++ [Ev.stat rsp], engineOutcome := none,
              cleanupRun := false, skipCleanup := false }) ∨
      (∃ rsp rsd t0 e,
        resolveScript rt workspacePath scriptName = (.ok (rsp, rsd), t0) ∧
        containmentFails rt workspacePath rsp rsd = false ∧
        rt.stat rsp = .error e ∧
        runWorkspaceScript rt engine workspacePath scriptName args opts
          = { result := .ok (Result.Err (notFoundMsg scriptName)),
              trace := t0 ++ [Ev.stat rsp], engineOutcome := none,
              cleanupRun := false, skipCleanup := false }) ∨
      (∃ rsp rsd t0 st,
        resolveScript rt workspacePath scriptName = (.ok (rsp, rsd), t0) ∧
        containmentFails rt workspacePath rsp rsd = false ∧
        rt.stat rsp = .ok st ∧ st.isDirectory = false ∧
        runWorkspaceScript rt engine workspacePath scriptName args opts
          = { runExecutionPhase rt engine args opts rsp with
              trace := t0 ++ [Ev.stat rsp]
                ++ (runExecutionPhase rt engine args opts rsp).trace }))) := by
  cases hbad : (strIncludes scriptName "/" || strIncludes scriptName "\\"
      || strIncludes scriptName "..") with
  | true =>
    exact Or.inl ⟨rfl, by simp [runWorkspaceScript, hbad]⟩
  | false =>
    refine Or.inr ⟨rfl, ?_⟩
    cases hres : resolveScript rt workspacePath scriptName with
    | mk fst t0 =>
      cases fst with
      | error e =>
        exact Or.inl ⟨e, t0, rfl, by simp [runWorkspaceScript, hbad, hres]⟩
      | ok pr =>
        obtain ⟨rsp, rsd⟩ := pr
        cases hesc : containmentFails rt workspacePath rsp rsd with
        | true =>
          exact Or.inr (Or.inl ⟨rsp, rsd, t0, rfl, hesc,
            by simp [runWorkspaceScript, hbad, hres, hesc]⟩)
        | false =>
          cases hst : rt.stat rsp with
          | ok st =>
            cases hdir : st.isDirectory with
            | true =>
              exact Or.inr (Or.inr (Or.inl ⟨rsp, rsd, t0, st, rfl, hesc, hst, hdir,
                by simp [runWorkspaceScript, hbad, hres, hesc, hst, hdir]⟩))
            | false =>
              exact Or.inr (Or.inr (Or.inr (Or.inr ⟨rsp, rsd, t0, st, rfl, hesc,
                hst, hdir,
                by simp [runWorkspaceScript, hbad, hres, hesc, hst, hdir]⟩)))
          | error e =>
            exact Or.inr (Or.inr (Or.inr (Or.inl ⟨rsp, rsd, t0, e, rfl, hesc, hst,
              by simp [runWorkspaceScript, hbad, hres, hesc, hst]⟩)))

theorem tryResolveStat_trace_head (rt : Runtime) (p d : String) :
    ∃ t, (tryResolveStat rt p d).2 = Ev.resolvePath p :: t := by
  unfold tryResolveStat
  cases h1 : rt.resolvePath p with
  | error e => exact ⟨[], rfl⟩
  | ok cand =>
    cases h2 : rt.stat cand with
    | error e => exact ⟨[Ev.stat cand], by simp [h2]⟩
    | ok st =>
      cases h3 : rt.resolvePath d with
      | error e => exact ⟨[Ev.stat cand, Ev.resolvePath d], by simp [h2, h3]⟩
      | ok dir => exact ⟨[Ev.stat cand, Ev.resolvePath d], by simp [h2, h3]⟩

theorem resolveScript_trace_head (rt : Runtime) (workspacePath scriptName : String) :
    ∃ t, (resolveScript rt workspacePath scriptName).2
      = Ev.resolvePath (getScriptPath workspacePath scriptName) :: t := by
  unfold resolveScript
  obtain ⟨t, ht⟩ := tryResolveStat_trace_head rt
    (getScriptPath workspacePath scriptName) (getScriptsDir workspacePath)
  cases h1 : tryResolveStat rt (getScriptPath workspacePath scriptName)
      (getScriptsDir workspacePath) with
  | mk r1 t1 =>
    rw [h1] at ht
    simp only at ht
    subst ht
    cases r1 with
    | ok r => exact ⟨t, rfl⟩
    | error u =>
      cases h2 : tryResolveStat rt (getLegacyScriptPath workspacePath scriptName)
          (getLegacyScriptsDir workspacePath) with
      | mk r2 t2 =>
        cases r2 with
        | ok r => exact ⟨t ++ t2, rfl⟩
        | error u2 =>
          cases h3 : resolveFallback rt (getScriptPath workspacePath scriptName)
              (getScriptsDir workspacePath) with
          | mk r3 t3 => exact ⟨t ++ t2 ++ t3, by simp⟩

/-- C2: a script name containing "/", "\" or ".." makes `runWorkspaceScript`
return the InvalidScriptName error immediately, with no runtime operation
invoked before the return (empty trace, engine never called, no cleanup);
conversely a name free of those substrings passes validation and the runner
proceeds to resolution, whose first action is the `resolvePath` call on the
canonical script path. -/
theorem runWorkspaceScript_name_validation (rt : Runtime) (engine : BashEngine)
    (workspacePath scriptName : String) (args : List String)
    (opts : RunScriptOptions) :
    ((strIncludes scriptName "/" || strIncludes scriptName "\\"
        || strIncludes scriptName "..") = true →
      runWorkspaceScript rt engine workspacePath scriptName args opts
        = { result := .ok (Result.Err (invalidNameMsg scriptName)), trace := [],
            engineOutcome := none, cleanupRun := false, skipCleanup := false }) ∧
    ((strIncludes scriptName "/" || strIncludes scriptName "\\"
        || strIncludes scriptName "..") = false →
      ∃ t, (runWorkspaceScript rt engine workspacePath scriptName args opts).trace
        = Ev.resolvePath (getScriptPath workspacePath scriptName) :: t) := by
  constructor
  · intro hbad
    simp [runWorkspaceScript, hbad]
  · intro hgood
    obtain ⟨t, ht⟩ := resolveScript_trace_head rt workspacePath scriptName
    rcases run_cases rt engine workspacePath scriptName args opts with
      ⟨hb, _⟩ | ⟨_, hcase⟩
    · rw [hgood] at hb
      exact absurd hb (by simp)
    · rcases hcase with ⟨e, t0, hres, hrun⟩ | ⟨rsp, rsd, t0, hres, _, hrun⟩
        | ⟨rsp, rsd, t0, st, hres, _, _, _, hrun⟩
        | ⟨rsp, rsd, t0, e, hres, _, _, hrun⟩
        | ⟨rsp, rsd, t0, st, hres, _, _, _, hrun⟩
      all_goals rw [hres] at ht
      all_goals simp only at ht
      · exact ⟨t, by rw [hrun]; exact ht⟩
      · exact ⟨t, by rw [hrun]; exact ht⟩
      · refine ⟨t ++ [Ev.stat rsp], ?_⟩
        rw [hrun]
        show t0 ++ [Ev.stat rsp] = _
        rw [ht]
        simp
      · refine ⟨t ++ [Ev.stat rsp], ?_⟩
        rw [hrun]
        show t0 ++ [Ev.stat rsp] = _
        rw [ht]
        simp
      · refine ⟨t ++ [Ev.stat rsp]
          ++ (runExecutionPhase rt engine args opts rsp).trace, ?_⟩
        rw [hrun]
        show t0 ++ [Ev.stat rsp] ++ (runExecutionPhase rt engine args opts rsp).trace = _
        rw [ht]
        simp

/-- Witness for C2: the traversal name "../x" is rejected with an empty trace;
the clean name "build" proceeds to resolution. -/
theorem runWorkspaceScript_name_validation_witness :
    runWorkspaceScript okRuntime (okEngine (BashToolResult.ok "out" 0))
        "/ws" "../x" [] {}
      = { result := .ok (Result.Err (invalidNameMsg "../x")), trace := [],
          engineOutcome := none, cleanupRun := false, skipCleanup := false } ∧
    ∃ t, (runWorkspaceScript okRuntime (okEngine (BashToolResult.ok "out" 0))
        "/ws" "build" [] {}).trace
      = Ev.resolvePath (getScriptPath "/ws" "build") :: t := by
  constructor
  · exact (runWorkspaceScript_name_validation okRuntime
      (okEngine (BashToolResult.ok "out" 0)) "/ws" "../x" [] {}).1 (by decide)
  · exact (runWorkspaceScript_name_validation okRuntime
      (okEngine (BashToolResult.ok "out" 0)) "/ws" "build" [] {}).2 (by decide)

/-- C1: whenever name validation passes and resolution returns resolved paths
`(rsp, rsd)`, if the runtime-normalized resolved script path does not start
with the normalized resolved scripts directory followed by the separator
(`containmentFails`), then the call returns the PathEscape error and performs
no temp-dir allocation, no engine execution and no cleanup — its trace holds
only `resolvePath`/`stat` calls.  Contrapositively, a run that proceeds past
the containment check satisfies the prefix property. -/
theorem runWorkspaceScript_path_containment (rt : Runtime) (engine : BashEngine)
    (workspacePath scriptName : String) (args : List String)
    (opts : RunScriptOptions) (rsp rsd : String)
    (hname : (strIncludes scriptName "/" || strIncludes scriptName "\\"
        || strIncludes scriptName "..") = false)
    (hres : (resolveScript rt workspacePath scriptName).1 = .ok (rsp, rsd))
    (hesc : containmentFails rt workspacePath rsp rsd = true) :
    (runWorkspaceScript rt engine workspacePath scriptName args opts).result
      = .ok (Result.Err (pathEscapeMsg scriptName)) ∧
    (runWorkspaceScript rt engine workspacePath scriptName args opts).engineOutcome
      = none ∧
    (runWorkspaceScript rt engine workspacePath scriptName args opts).cleanupRun
      = false ∧
    (∀ e ∈ (runWorkspaceScript rt engine workspacePath scriptName args opts).trace,
      e.isFsCall = true) := by
  rcases run_cases rt engine workspacePath scriptName args opts with
    ⟨hb, _⟩ | ⟨_, hcase⟩
  · rw [hname] at hb
    exact absurd hb (by simp)
  · rcases hcase with ⟨e, t0, hres2, hrun⟩ | ⟨rsp2, rsd2, t0, hres2, hesc2, hrun⟩
      | ⟨rsp2, rsd2, t0, st, hres2, hesc2, _, _, hrun⟩
      | ⟨rsp2, rsd2, t0, e, hres2, hesc2, _, hrun⟩
      | ⟨rsp2, rsd2, t0, st, hres2, hesc2, _, _, hrun⟩
    · rw [hres2] at hres
      exact absurd hres (by simp)
    · rw [hres2] at hres
      simp only [Except.ok.injEq, Prod.mk.injEq] at hres
      obtain ⟨h1, h2⟩ := hres
      subst h1; subst h2
      refine ⟨by rw [hrun], by rw [hrun], by rw [hrun], ?_⟩
      rw [hrun]
      show ∀ e ∈ t0, e.isFsCall = true
      have hfs := resolveScript_trace_fs rt workspacePath scriptName
      rw [hres2] at hfs
      exact hfs
    · rw [hres2] at hres
      simp only [Except.ok.injEq, Prod.mk.injEq] at hres
      obtain ⟨h1, h2⟩ := hres
      subst h1; subst h2
      rw [hesc] at hesc2
      exact absurd hesc2 (by simp)
    · rw [hres2] at hres
      simp only [Except.ok.injEq, Prod.mk.injEq] at hres
      obtain ⟨h1, h2⟩ := hres
      subst h1; subst h2
      rw [hesc] at hesc2
      exact absurd hesc2 (by simp)
    · rw [hres2] at hres
      simp only [Except.ok.injEq, Prod.mk.injEq] at hres
      obtain ⟨h1, h2⟩ := hres
      subst h1; subst h2
      rw [hesc] at hesc2
      exact absurd hesc2 (by simp)

/-- Witness for C1: a runtime that resolves everything to "/evil" (a symlink
escape) is rejected with PathEscape; the trace holds only filesystem calls. -/
theorem runWorkspaceScript_path_containment_witness :
    (strIncludes "build" "/" || strIncludes "build" "\\"
        || strIncludes "build" "..") = false ∧
    (resolveScript escRuntime "/ws" "build").1 = .ok ("/evil", "/evil") ∧
    containmentFails escRuntime "/ws" "/evil" "/evil" = true ∧
    (runWorkspaceScript escRuntime (okEngine (BashToolResult.ok "out" 0))
        "/ws" "build" [] {}).result
      = .ok (Result.Err (pathEscapeMsg "build")) ∧
    (runWorkspaceScript escRuntime (okEngine (BashToolResult.ok "out" 0))
        "/ws" "build" [] {}).engineOutcome = none := by
  have h := runWorkspaceScript_path_containment escRuntime
    (okEngine (BashToolResult.ok "out" 0)) "/ws" "build" [] {} "/evil" "/evil"
    (by decide) rfl (by decide)
  exact ⟨by decide, rfl, by decide, h.1, h.2.1⟩

theorem run_engine_some (rt : Runtime) (engine : BashEngine)
    (workspacePath scriptName : String) (args : List String)
    (opts : RunScriptOptions) (x : Except String BashToolResult)
    (h : (runWorkspaceScript rt engine workspacePath scriptName args opts).engineOutcome
      = some x) :
    ∃ rsp rsd t0 st,
      resolveScript rt workspacePath scriptName = (.ok (rsp, rsd), t0) ∧
      containmentFails rt workspacePath rsp rsd = false ∧
      rt.stat rsp = .ok st ∧ st.isDirectory = false ∧
      runWorkspaceScript rt engine workspacePath scriptName args opts
        = { runExecutionPhase rt engine args opts rsp with
            trace := t0 ++ [Ev.stat rsp]
              ++ (runExecutionPhase rt engine args opts rsp).trace } ∧
      (runExecutionPhase rt engine args opts rsp).engineOutcome = some x := by
  rcases run_cases rt engine workspacePath scriptName args opts with
    ⟨_, hrun⟩ | ⟨_, hcase⟩
  · rw [hrun] at h
    exact absurd h (by simp)
  · rcases hcase with ⟨e, t0, hres, hrun⟩ | ⟨rsp, rsd, t0, hres, hesc, hrun⟩
      | ⟨rsp, rsd, t0, st, hres, hesc, hst, hdir, hrun⟩
      | ⟨rsp, rsd, t0, e, hres, hesc, hst, hrun⟩
      | ⟨rsp, rsd, t0, st, hres, hesc, hst, hdir, hrun⟩
    · rw [hrun] at h; exact absurd h (by simp)
    · rw [hrun] at h; exact absurd h (by simp)
    · rw [hrun] at h; exact absurd h (by simp)
    · rw [hrun] at h; exact absurd h (by simp)
    · refine ⟨rsp, rsd, t0, st, hres, hesc, hst, hdir, hrun, ?_⟩
      rw [hrun] at h
      exact h

theorem phase_engine_ok (rt : Runtime) (engine : BashEngine) (args : List String)
    (opts : RunScriptOptions) (rsp : String) (tr : BashToolResult)
    (h : (runExecutionPhase rt engine args opts rsp).engineOutcome
      = some (Except.ok tr)) :
    runExecutionPhase rt engine args opts rsp
      = { result := .ok (Result.Ok (assembleResult tr)),
          trace := [Ev.execBuffered (tdCmd opts),
                    Ev.engineExec (buildCommand rsp args)]
            ++ (if indicatesTmpfileOverflow (persistentBase opts.persistentTempDir)
                  opts.overflowPolicy tr then []
                else [Ev.execBuffered (cleanupCommand (tdDir rt opts))]),
          engineOutcome := some (.ok tr),
          cleanupRun := !(indicatesTmpfileOverflow
            (persistentBase opts.persistentTempDir) opts.overflowPolicy tr),
          skipCleanup := indicatesTmpfileOverflow
            (persistentBase opts.persistentTempDir) opts.overflowPolicy tr } := by
  rcases phase_cases rt engine args opts rsp with
    ⟨_, hph⟩ | ⟨_, _, hph⟩ | ⟨_, _, tr2, _, hph⟩ | ⟨_, _, msg, _, hph⟩
  · rw [hph] at h; exact absurd h (by simp)
  · rw [hph] at h; exact absurd h (by simp)
  · rw [hph] at h
    simp only at h
    simp only [Option.some.injEq, Except.ok.injEq] at h
    subst h
    exact hph
  · rw [hph] at h
    simp only at h
    simp only [Option.some.injEq] at h
    exact absurd h (by simp)

theorem phase_engine_err (rt : Runtime) (engine : BashEngine) (args : List String)
    (opts : RunScriptOptions) (rsp : String) (msg : String)
    (h : (runExecutionPhase rt engine args opts rsp).engineOutcome
      = some (Except.error msg)) :
    runExecutionPhase rt engine args opts rsp
      = { result := .ok (Result.Err (execFailedMsg msg)),
          trace := [Ev.execBuffered (tdCmd opts),
                    Ev.engineExec (buildCommand rsp args),
                    Ev.execBuffered (cleanupCommand (tdDir rt opts))],
          engineOutcome := some (.error msg),
          cleanupRun := true, skipCleanup := false } := by
  rcases phase_cases rt engine args opts rsp with
    ⟨_, hph⟩ | ⟨_, _, hph⟩ | ⟨_, _, tr2, _, hph⟩ | ⟨_, _, msg2, _, hph⟩
  · rw [hph] at h; exact absurd h (by simp)
  · rw [hph] at h; exact absurd h (by simp)
  · rw [hph] at h
    simp only at h
    simp only [Option.some.injEq] at h
    exact absurd h (by simp)
  · rw [hph] at h
    simp only at h
    simp only [Option.some.injEq, Except.error.injEq] at h
    subst h
    exact hph

/-- Counterexample for C3: a runtime whose `resolvePath` throws makes the call
itself throw.  After both guarded resolution attempts fail, the unguarded
fallback (`await runtime.resolvePath(canonicalScriptPath)` in the inner catch,
lines 177-178) re-invokes `resolvePath` outside any try block, so the
exception escapes to the caller (`.error`) instead of a typed `Result`. -/
theorem runWorkspaceScript_exception_counterexample :
    (runWorkspaceScript throwRuntime (okEngine (BashToolResult.ok "out" 0))
        "/ws" "build" [] {}).result = Except.error "resolvePath boom" := by
  rfl

/-- C3 (amended): any exception thrown by the bash engine during
spawn/execute is caught: the call returns the typed error
`"Script execution failed: <message>"`, the temp-dir cleanup `rm` is issued
(not awaited), and cleanup is not skipped.  (Exceptions thrown by runtime
operations in the unguarded resolution fallback propagate; see the
counterexample.) -/
theorem runWorkspaceScript_exception_containment (rt : Runtime)
    (engine : BashEngine) (workspacePath scriptName : String)
    (args : List String) (opts : RunScriptOptions) (msg : String)
    (h : (runWorkspaceScript rt engine workspacePath scriptName args opts).engineOutcome
      = some (Except.error msg)) :
    (runWorkspaceScript rt engine workspacePath scriptName args opts).result
      = .ok (Result.Err (execFailedMsg msg)) ∧
    (runWorkspaceScript rt engine workspacePath scriptName args opts).cleanupRun
      = true ∧
    (runWorkspaceScript rt engine workspacePath scriptName args opts).skipCleanup
      = false ∧
    Ev.execBuffered (cleanupCommand (tdDir rt opts))
      ∈ (runWorkspaceScript rt engine workspacePath scriptName args opts).trace := by
  obtain ⟨rsp, rsd, t0, st, hres, hesc, hst, hdir, hrun, hph⟩ :=
    run_engine_some rt engine workspacePath scriptName args opts
      (Except.error msg) h
  have hphe := phase_engine_err rt engine args opts rsp msg hph
  refine ⟨?_, ?_, ?_, ?_⟩
  · rw [hrun]
    show (runExecutionPhase rt engine args opts rsp).result = _
    rw [hphe]
  · rw [hrun]
    show (runExecutionPhase rt engine args opts rsp).cleanupRun = _
    rw [hphe]
  · rw [hrun]
    show (runExecutionPhase rt engine args opts rsp).skipCleanup = _
    rw [hphe]
  · rw [hrun]
    show _ ∈ t0 ++ [Ev.stat rsp] ++ (runExecutionPhase rt engine args opts rsp).trace
    rw [hphe]
    simp

/-- Witness for C3 (amended): a throwing engine on a well-behaved runtime. -/
theorem runWorkspaceScript_exception_containment_witness :
    (runWorkspaceScript okRuntime (throwEngine "spawn boom")
        "/ws" "build" [] {}).result
      = .ok (Result.Err "Script execution failed: spawn boom") ∧
    (runWorkspaceScript okRuntime (throwEngine "spawn boom")
        "/ws" "build" [] {}).cleanupRun = true := by
  have h := runWorkspaceScript_exception_containment okRuntime
    (throwEngine "spawn boom") "/ws" "build" [] {} "spawn boom" rfl
  exact ⟨h.1, h.2.1⟩

/-- Counterexample for C4: the code's cleanup-skip test requires the literal
substring `"[OUTPUT OVERFLOW -"`, not the claim's `"OUTPUT OVERFLOW"` marker.
With a persistent root supplied, policy `tmpfile`, and an engine failure whose
error text is exactly `"OUTPUT OVERFLOW"` (so it contains the claimed marker
but not the bracketed form), the temp dir is still cleaned up rather than
retained. -/
theorem runWorkspaceScript_cleanup_counterexample :
    strIncludes "OUTPUT OVERFLOW" "OUTPUT OVERFLOW" = true ∧
    (persistentBase (some "/persist")).isSome = true ∧
    (BashToolResult.fail "OUTPUT OVERFLOW" none 1).success = false ∧
    (runWorkspaceScript okRuntime
        (okEngine (BashToolResult.fail "OUTPUT OVERFLOW" none 1))
        "/ws" "build" []
        { overflowPolicy := OverflowPolicy.tmpfile,
          persistentTempDir := some "/persist" }).engineOutcome
      = some (Except.ok (BashToolResult.fail "OUTPUT OVERFLOW" none 1)) ∧
    (runWorkspaceScript okRuntime
        (okEngine (BashToolResult.fail "OUTPUT OVERFLOW" none 1))
        "/ws" "build" []
        { overflowPolicy := OverflowPolicy.tmpfile,
          persistentTempDir := some "/persist" }).cleanupRun = true ∧
    (runWorkspaceScript okRuntime
        (okEngine (BashToolResult.fail "OUTPUT OVERFLOW" none 1))
        "/ws" "build" []
        { overflowPolicy := OverflowPolicy.tmpfile,
          persistentTempDir := some "/persist" }).skipCleanup = false := by
  refine ⟨by decide, rfl, rfl, rfl, rfl, rfl⟩

/-- C4 (amended): after the engine returns, the temp directory is removed via
the (non-awaited) `rm` command except exactly when the persistent root was
supplied (nonempty after trimming), the overflow policy is `tmpfile`, and the
engine result is a failure whose error text contains the literal
`"[OUTPUT OVERFLOW -"` — in that case cleanup is skipped. -/
theorem runWorkspaceScript_cleanup (rt : Runtime) (engine : BashEngine)
    (workspacePath scriptName : String) (args : List String)
    (opts : RunScriptOptions) (tr : BashToolResult)
    (h : (runWorkspaceScript rt engine workspacePath scriptName args opts).engineOutcome
      = some (Except.ok tr)) :
    (runWorkspaceScript rt engine workspacePath scriptName args opts).cleanupRun
      = !(indicatesTmpfileOverflow (persistentBase opts.persistentTempDir)
          opts.overflowPolicy tr) ∧
    (runWorkspaceScript rt engine workspacePath scriptName args opts).skipCleanup
      = indicatesTmpfileOverflow (persistentBase opts.persistentTempDir)
          opts.overflowPolicy tr ∧
    (indicatesTmpfileOverflow (persistentBase opts.persistentTempDir)
        opts.overflowPolicy tr = false →
      Ev.execBuffered (cleanupCommand (tdDir rt opts))
        ∈ (runWorkspaceScript rt engine workspacePath scriptName args opts).trace) := by
  obtain ⟨rsp, rsd, t0, st, hres, hesc, hst, hdir, hrun, hph⟩ :=
    run_engine_some rt engine workspacePath scriptName args opts
      (Except.ok tr) h
  have hphe := phase_engine_ok rt engine args opts rsp tr hph
  refine ⟨?_, ?_, ?_⟩
  · rw [hrun]
    show (runExecutionPhase rt engine args opts rsp).cleanupRun = _
    rw [hphe]
  · rw [hrun]
    show (runExecutionPhase rt engine args opts rsp).skipCleanup = _
    rw [hphe]
  · intro hind
    rw [hrun]
    show _ ∈ t0 ++ [Ev.stat rsp] ++ (runExecutionPhase rt engine args opts rsp).trace
    rw [hphe]
    simp [hind]

/-- Witness for C4 (amended): a genuine tmpfile overflow (bracketed marker,
persistent root, tmpfile policy) skips cleanup; the same call shape with
policy `truncate` runs cleanup. -/
theorem runWorkspaceScript_cleanup_witness :
    (runWorkspaceScript okRuntime
        (okEngine (BashToolResult.fail
          "[OUTPUT OVERFLOW - 123456 bytes] saved to /persist/script-ab/log" none 1))
        "/ws" "build" []
        { overflowPolicy := OverflowPolicy.tmpfile,
          persistentTempDir := some "/persist" }).skipCleanup = true ∧
    (runWorkspaceScript okRuntime
        (okEngine (BashToolResult.fail
          "[OUTPUT OVERFLOW - 123456 bytes] saved to /persist/script-ab/log" none 1))
        "/ws" "build" []
        { overflowPolicy := OverflowPolicy.tmpfile,
          persistentTempDir := some "/persist" }).cleanupRun = false := by
  have h := runWorkspaceScript_cleanup okRuntime
    (okEngine (BashToolResult.fail
      "[OUTPUT OVERFLOW - 123456 bytes] saved to /persist/script-ab/log" none 1))
    "/ws" "build" []
    { overflowPolicy := OverflowPolicy.tmpfile,
      persistentTempDir := some "/persist" }
    (BashToolResult.fail
      "[OUTPUT OVERFLOW - 123456 bytes] saved to /persist/script-ab/log" none 1)
    rfl
  refine ⟨h.2.1.trans (by decide), h.1.trans (by decide)⟩

/-- C5: when the engine returns a result, the assembled
`ScriptExecutionResult` satisfies: engine success ⇒ `stderr` empty and
`stdout` the full captured output; engine failure ⇒ `stderr` the engine's
error text and `stdout` whatever output was captured (empty string when
none); the exit code and raw tool result are carried over. -/
theorem runWorkspaceScript_result_assembly (rt : Runtime) (engine : BashEngine)
    (workspacePath scriptName : String) (args : List String)
    (opts : RunScriptOptions) (tr : BashToolResult)
    (h : (runWorkspaceScript rt engine workspacePath scriptName args opts).engineOutcome
      = some (Except.ok tr)) :
    (runWorkspaceScript rt engine workspacePath scriptName args opts).result
      = .ok (Result.Ok (assembleResult tr)) ∧
    (assembleResult tr).exitCode = tr.exitCode ∧
    (assembleResult tr).toolResult = tr ∧
    (∀ out ec, tr = BashToolResult.ok out ec →
      (assembleResult tr).stdout = out ∧ (assembleResult tr).stderr = "") ∧
    (∀ err out ec, tr = BashToolResult.fail err out ec →
      (assembleResult tr).stdout = out.getD "" ∧ (assembleResult tr).stderr = err) := by
  obtain ⟨rsp, rsd, t0, st, hres, hesc, hst, hdir, hrun, hph⟩ :=
    run_engine_some rt engine workspacePath scriptName args opts
      (Except.ok tr) h
  have hphe := phase_engine_ok rt engine args opts rsp tr hph
  refine ⟨?_, ?_, ?_, ?_, ?_⟩
  · rw [hrun]
    show (runExecutionPhase rt engine args opts rsp).result = _
    rw [hphe]
  · cases tr <;> rfl
  · cases tr <;> rfl
  · intro out ec htr
    subst htr
    exact ⟨rfl, rfl⟩
  · intro err out ec htr
    subst htr
    exact ⟨rfl, rfl⟩

/-- Witness for C5: a succeeding engine yields `stdout = "hello"`,
`stderr = ""`; the hypothesis is discharged by computation. -/
theorem runWorkspaceScript_result_assembly_witness :
    (runWorkspaceScript okRuntime (okEngine (BashToolResult.ok "hello" 0))
        "/ws" "build" [] {}).result
      = .ok (Result.Ok (ScriptExecutionResult.mk 0 "hello" ""
          (BashToolResult.ok "hello" 0))) := by
  have h := runWorkspaceScript_result_assembly okRuntime
    (okEngine (BashToolResult.ok "hello" 0)) "/ws" "build" [] {}
    (BashToolResult.ok "hello" 0) rfl
  exact h.1.trans (by rfl)

/-- C10 (implicit): whenever the engine returns a result — success or failure
(non-zero exit, timeout, overflow) — `runWorkspaceScript` returns `Ok`, the
failure being encoded inside the `ScriptExecutionResult`; the `Err` branch is
reserved for pre-execution failures (no engine call at all) and for
exceptions thrown during spawn/execute (in which case the message is
`"Script execution failed: <message>"`). -/
theorem runWorkspaceScript_err_reserved (rt : Runtime) (engine : BashEngine)
    (workspacePath scriptName : String) (args : List String)
    (opts : RunScriptOptions) :
    (∀ tr, (runWorkspaceScript rt engine workspacePath scriptName args opts).engineOutcome
        = some (Except.ok tr) →
      (runWorkspaceScript rt engine workspacePath scriptName args opts).result
        = .ok (Result.Ok (assembleResult tr))) ∧
    (∀ e, (runWorkspaceScript rt engine workspacePath scriptName args opts).result
        = .ok (Result.Err e) →
      (runWorkspaceScript rt engine workspacePath scriptName args opts).engineOutcome
        = none ∨
      ∃ msg, (runWorkspaceScript rt engine workspacePath scriptName args opts).engineOutcome
          = some (Except.error msg) ∧ e = execFailedMsg msg) := by
  constructor
  · intro tr h
    obtain ⟨rsp, rsd, t0, st, hres, hesc, hst, hdir, hrun, hph⟩ :=
      run_engine_some rt engine workspacePath scriptName args opts
        (Except.ok tr) h
    have hphe := phase_engine_ok rt engine args opts rsp tr hph
    rw [hrun]
    show (runExecutionPhase rt engine args opts rsp).result = _
    rw [hphe]
  · intro e h
    rcases run_cases rt engine workspacePath scriptName args opts with
      ⟨_, hrun⟩ | ⟨_, hcase⟩
    · left; rw [hrun]
    · rcases hcase with ⟨e2, t0, hres, hrun⟩ | ⟨rsp, rsd, t0, hres, hesc, hrun⟩
        | ⟨rsp, rsd, t0, st, hres, hesc, hst, hdir, hrun⟩
        | ⟨rsp, rsd, t0, e2, hres, hesc, hst, hrun⟩
        | ⟨rsp, rsd, t0, st, hres, hesc, hst, hdir, hrun⟩
      · left; rw [hrun]
      · left; rw [hrun]
      · left; rw [hrun]
      · left; rw [hrun]
      · rcases phase_cases rt engine args opts rsp with
          ⟨_, hph⟩ | ⟨_, _, hph⟩ | ⟨_, _, tr2, _, hph⟩ | ⟨_, _, msg, _, hph⟩
        · left
          rw [hrun]
          show (runExecutionPhase rt engine args opts rsp).engineOutcome = none
          rw [hph]
        · left
          rw [hrun]
          show (runExecutionPhase rt engine args opts rsp).engineOutcome = none
          rw [hph]
        · exfalso
          rw [hrun] at h
          have hres2 : (runExecutionPhase rt engine args opts rsp).result
              = .ok (Result.Err e) := h
          rw [hph] at hres2
          exact absurd hres2 (by simp)
        · right
          refine ⟨msg, ?_, ?_⟩
          · rw [hrun]
            show (runExecutionPhase rt engine args opts rsp).engineOutcome = _
            rw [hph]
          · rw [hrun] at h
            have hres2 : (runExecutionPhase rt engine args opts rsp).result
                = .ok (Result.Err e) := h
            rw [hph] at hres2
            simp only [Except.ok.injEq, Result.Err.injEq] at hres2
            exact hres2.symm

/-- Witness for C10: an engine failure with non-zero exit code still yields
`Ok`, the failure encoded in the assembled result. -/
theorem runWorkspaceScript_err_reserved_witness :
    (runWorkspaceScript okRuntime
        (okEngine (BashToolResult.fail "exit 3" (some "partial") 3))
        "/ws" "build" [] {}).result
      = .ok (Result.Ok (assembleResult
          (BashToolResult.fail "exit 3" (some "partial") 3))) := by
  exact (runWorkspaceScript_err_reserved okRuntime
    (okEngine (BashToolResult.fail "exit 3" (some "partial") 3))
    "/ws" "build" [] {}).1 (BashToolResult.fail "exit 3" (some "partial") 3) rfl

theorem jsJoin_shellQuote_ne_empty (x : String) (l : List String) :
    jsJoin " " (shellQuote x :: l) ≠ "" := by
  intro hcontra
  have hlen := congrArg String.length hcontra
  cases l with
  | nil =>
    simp only [jsJoin] at hlen
    simp [shellQuote, String.length_append] at hlen
    exact absurd hlen.1.1 (by decide)
  | cons y ys =>
    simp only [jsJoin] at hlen
    simp [shellQuote, String.length_append] at hlen
    exact absurd hlen.1.1.1.1 (by decide)

/-- C6: the command string handed to the bash engine is exactly the
single-quoted escape of the resolved script path followed by the
single-quoted escapes of the arguments, joined by single spaces — no
argument dropped, reordered or merged.  First conjunct: `buildCommand` equals
the space-join of the individually quoted segments.  Second conjunct: any
command the engine is invoked with (an `engineExec` event of a run) is
`buildCommand` of the resolved script path and the original argument list. -/
theorem buildCommand_quoting :
    (∀ p args2, buildCommand p args2
      = jsJoin " " ((p :: args2).map shellQuote)) ∧
    (∀ (rt : Runtime) (engine : BashEngine) (workspacePath scriptName : String)
        (args : List String) (opts : RunScriptOptions) (c : String),
      Ev.engineExec c
          ∈ (runWorkspaceScript rt engine workspacePath scriptName args opts).trace →
      ∃ rsp rsd t0,
        resolveScript rt workspacePath scriptName = (.ok (rsp, rsd), t0) ∧
        c = buildCommand rsp args) := by
  constructor
  · intro p args2
    cases args2 with
    | nil => simp [buildCommand, escapedArgs, jsJoin, shellQuote]
    | cons a as =>
      have hne := jsJoin_shellQuote_ne_empty a (as.map shellQuote)
      simp only [buildCommand, escapedArgs, List.map_cons]
      rw [if_neg hne]
      show shellQuote p ++ (" " ++ jsJoin " " (shellQuote a :: as.map shellQuote))
          = jsJoin " " (shellQuote p :: shellQuote a :: as.map shellQuote)
      rw [jsJoin]
      rw [String.append_assoc]
  · intro rt engine workspacePath scriptName args opts c hmem
    rcases run_cases rt engine workspacePath scriptName args opts with
      ⟨_, hrun⟩ | ⟨_, hcase⟩
    · rw [hrun] at hmem
      simp at hmem
    · have hfs := resolveScript_trace_fs rt workspacePath scriptName
      rcases hcase with ⟨e, t0, hres, hrun⟩ | ⟨rsp, rsd, t0, hres, hesc, hrun⟩
        | ⟨rsp, rsd, t0, st, hres, hesc, hst, hdir, hrun⟩
        | ⟨rsp, rsd, t0, e, hres, hesc, hst, hrun⟩
        | ⟨rsp, rsd, t0, st, hres, hesc, hst, hdir, hrun⟩
      · rw [hrun] at hmem
        rw [hres] at hfs
        have := hfs _ hmem
        simp [Ev.isFsCall] at this
      · rw [hrun] at hmem
        rw [hres] at hfs
        have := hfs _ hmem
        simp [Ev.isFsCall] at this
      · rw [hrun] at hmem
        rw [hres] at hfs
        have hm : Ev.engineExec c ∈ t0 ++ [Ev.stat rsp] := hmem
        simp only [List.mem_append] at hm
        rcases hm with hm | hm
        · have := hfs _ hm
          simp [Ev.isFsCall] at this
        · simp at hm
      · rw [hrun] at hmem
        rw [hres] at hfs
        have hm : Ev.engineExec c ∈ t0 ++ [Ev.stat rsp] := hmem
        simp only [List.mem_append] at hm
        rcases hm with hm | hm
        · have := hfs _ hm
          simp [Ev.isFsCall] at this
        · simp at hm
      · rw [hrun] at hmem
        rw [hres] at hfs
        have hm : Ev.engineExec c ∈ t0 ++ [Ev.stat rsp]
            ++ (runExecutionPhase rt engine args opts rsp).trace := hmem
        simp only [List.mem_append] at hm
        rcases hm with (hm | hm) | hm
        · have := hfs _ hm
          simp [Ev.isFsCall] at this
        · simp at hm
        · refine ⟨rsp, rsd, t0, hres, ?_⟩
          rcases phase_cases rt engine args opts rsp with
            ⟨_, hph⟩ | ⟨_, _, hph⟩ | ⟨_, _, tr2, _, hph⟩ | ⟨_, _, msg, _, hph⟩
          · rw [hph] at hm
            simp at hm
          · rw [hph] at hm
            simp at hm
          · rw [hph] at hm
            by_cases hind : indicatesTmpfileOverflow
                (persistentBase opts.persistentTempDir) opts.overflowPolicy tr2 = true
            · simp [hind] at hm
              exact hm
            · rw [Bool.not_eq_true] at hind
              simp [hind] at hm
              exact hm
          · rw [hph] at hm
            simp at hm
            exact hm

/-- Witness for C6 on arguments with spaces and an embedded single quote, and
on a concrete run whose engine command is observed in the trace. -/
theorem buildCommand_quoting_witness :
    buildCommand "/s p" ["a b", "c'd"]
      = jsJoin " " (["/s p", "a b", "c'd"].map shellQuote) ∧
    (∃ rsp rsd t0,
      resolveScript okRuntime "/ws" "build" = (.ok (rsp, rsd), t0) ∧
      buildCommand (getScriptPath "/ws" "build") ["x"] = buildCommand rsp ["x"]) := by
  constructor
  · exact buildCommand_quoting.1 "/s p" ["a b", "c'd"]
  · obtain ⟨rsp, rsd, t0, hres, hc⟩ := buildCommand_quoting.2 okRuntime
      (okEngine (BashToolResult.ok "out" 0)) "/ws" "build" ["x"] {}
      (buildCommand (getScriptPath "/ws" "build") ["x"]) (by decide)
    exact ⟨rsp, rsd, t0, hres, by rw [hc]⟩
